import Mathlib

/-!
Shallow embedding of the `ndata` crate (heap/reference-counting engine) and
verification of its specification claims.

Source files embedded: `src/data.rs`, `src/usizemap.rs`, `src/heap.rs`,
`src/dataobject.rs`, `src/dataarray.rs`, `src/databytes.rs`, `src/ndata.rs`.

Modelling conventions:
* Rust `usize` indices and reference counts become `Nat`.
* `f64` payloads are modelled opaquely by their bit pattern (`Nat`); Rust's
  IEEE `==` on floats is modelled by bit equality.  No theorem below depends
  on float semantics.
* Rust panics (`panic!`, `expect`, `assert!`) are modelled by `Option`:
  a function that can panic returns `none` in exactly the panicking cases.
* The global mutable state (three heaps plus three pending-drop queues,
  each behind a `SharedMutex`) is modelled by explicit state passing on a
  record `NState`; lock acquisition order is modelled separately as event
  traces (see the `Locks` section).
* `Vec<T>` used as a stack (`UsizeMap.empty`) is modelled by a Lean list
  with the most recently pushed element first (`push` = cons, `pop` = head);
  `Vec<usize>` used as a FIFO drop queue (pushed at the back, drained from
  the front) is modelled by a list with `push` = append at the back.
* `HashMap<String, Data>` is modelled by an association list with unique
  keys kept in insertion order (`HashMap` iteration order is unspecified in
  Rust; the association-list order is one admissible order).
-/

namespace NData

/-- Bit pattern of an `f64` value (opaque model of Rust `f64`). -/
abbrev FloatBits := Nat

/-- `Data` from `src/data.rs`: the NData tagged value.
`DObject`/`DArray`/`DBytes` carry the `data_ref` heap index of an instance. -/
inductive Data where
  | DObject (r : Nat)
  | DArray (r : Nat)
  | DBytes (r : Nat)
  | DString (s : String)
  | DBoolean (b : Bool)
  | DFloat (f : FloatBits)
  | DInt (i : Int)
  | DNull
deriving DecidableEq, Repr

namespace Data

/-- `impl Clone for Data` (src/data.rs): each scalar variant is copied by
value and each handle variant copies the index only.  The function takes no
heap state: the Rust impl touches no heap and adjusts no reference count. -/
def clone : Data → Data
  | .DInt d => .DInt d
  | .DFloat d => .DFloat d
  | .DBoolean d => .DBoolean d
  | .DString d => .DString d
  | .DObject d => .DObject d
  | .DArray d => .DArray d
  | .DBytes d => .DBytes d
  | .DNull => .DNull

/-- `Data::equals` (src/data.rs).  The Rust code is an if/else-if chain over
the variants of both arguments; any cross-variant combination falls through
to the final `false`.  Float `==` is modelled as bit equality (unused by the
theorems below). -/
def equals : Data → Data → Bool
  | .DFloat x, .DFloat y => x == y
  | .DInt x, .DInt y => x == y
  | .DString x, .DString y => x == y
  | .DBoolean x, .DBoolean y => x == y
  | .DObject i, .DObject j => i == j
  | .DArray i, .DArray j => i == j
  | .DBytes i, .DBytes j => i == j
  | .DNull, .DNull => true
  | _, _ => false

/-- `Data::is_object` (src/data.rs). -/
def is_object : Data → Bool
  | .DObject _ => true
  | _ => false

/-- `Data::is_array` (src/data.rs). -/
def is_array : Data → Bool
  | .DArray _ => true
  | _ => false

/-- `Data::is_bytes` (src/data.rs). -/
def is_bytes : Data → Bool
  | .DBytes _ => true
  | _ => false

/-- Model helper: a value is handle-valued iff it is a `DObject`, `DArray`
or `DBytes` (combines the source's three `is_*` predicates). -/
def isHandle (d : Data) : Bool :=
  d.is_object || d.is_array || d.is_bytes

end Data

/-! ## `UsizeMap` (src/usizemap.rs): the slot-recycling arena. -/

/-- `UsizeMap<T>`: dense storage `Vec<Option<T>>`, a free list of reusable
indices (`empty`, modelled with the most recently pushed index first), and
the number of `Some` slots (`count`). -/
structure UsizeMap (T : Type) where
  data : List (Option T)
  empty : List Nat
  count : Nat

namespace UsizeMap

/-- `UsizeMap::new`. -/
def new {T : Type} : UsizeMap T := ⟨[], [], 0⟩

/-- `UsizeMap::insert`.  Increments `count`, then reuses a free index when one
exists (popping it from the free list) and otherwise appends.  The source
asserts that a reused slot is `None` (`assert!` = `none` here); the
defensive out-of-range branch resizes with `None` fill before writing. -/
def insert {T : Type} (m : UsizeMap T) (element : T) : Option (Nat × UsizeMap T) :=
  let count := m.count + 1
  match m.empty with
  | index :: rest =>
    if index < m.data.length then
      if (m.data.getD index none).isNone then
        some (index, ⟨m.data.set index (some element), rest, count⟩)
      else
        none
    else
      some (index,
        ⟨(m.data ++ List.replicate (index + 1 - m.data.length) none).set index (some element),
          rest, count⟩)
  | [] => some (m.data.length, ⟨m.data ++ [some element], [], count⟩)

/-- `UsizeMap::remove`: `take()` the slot if it is in bounds and `Some`;
only then decrement `count` and push the key on the free list. -/
def remove {T : Type} (m : UsizeMap T) (key : Nat) : Option T × UsizeMap T :=
  match m.data.getD key none with
  | some value => (some value, ⟨m.data.set key none, key :: m.empty, m.count - 1⟩)
  | none => (none, m)

/-- `UsizeMap::get` / the read-only part of `get_mut`. -/
def get? {T : Type} (m : UsizeMap T) (key : Nat) : Option T :=
  m.data.getD key none

/-- Model helper for the source's `get_mut(key).expect(..)` followed by an
in-place mutation: `none` models the panic on an invalid key. -/
def modify {T : Type} (m : UsizeMap T) (key : Nat) (f : T → T) : Option (UsizeMap T) :=
  match m.data.getD key none with
  | some v => some { m with data := m.data.set key (some (f v)) }
  | none => none

/-- `UsizeMap::contains_key`: in bounds and the slot holds `Some`. -/
def contains_key {T : Type} (m : UsizeMap T) (key : Nat) : Bool :=
  (m.data.getD key none).isSome

/-- `UsizeMap::len`: the tracked `count` field. -/
def len {T : Type} (m : UsizeMap T) : Nat := m.count

end UsizeMap

/-! ## `Heap` (src/heap.rs): reference-counted arena. -/

/-- `Blob<T>` (src/heap.rs): payload plus reference count. -/
structure Blob (T : Type) where
  data : T
  count : Nat

/-- `Heap<T>` (src/heap.rs). -/
structure Heap (T : Type) where
  data : UsizeMap (Blob T)

namespace Heap

/-- `Heap::new`. -/
def new {T : Type} : Heap T := ⟨UsizeMap.new⟩

/-- `Heap::push`: insert with count 1.  `none` only on the arena's internal
assertion failure (never on states reachable through the API). -/
def push {T : Type} (h : Heap T) (d : T) : Option (Nat × Heap T) :=
  (h.data.insert ⟨d, 1⟩).map fun p => (p.1, ⟨p.2⟩)

/-- `Heap::contains_key`. -/
def contains_key {T : Type} (h : Heap T) (i : Nat) : Bool :=
  h.data.contains_key i

/-- Read the payload (`Heap::get` without the panic; the panicking accessor
is modelled by matching on `none`). -/
def get? {T : Type} (h : Heap T) (i : Nat) : Option T :=
  (h.data.get? i).map Blob.data

/-- `Heap::count` (panics on an invalid index, hence `Option`). -/
def count? {T : Type} (h : Heap T) (i : Nat) : Option Nat :=
  (h.data.get? i).map Blob.count

/-- `Heap::incr`: `count += 1`; panics (`none`) on an invalid index. -/
def incr {T : Type} (h : Heap T) (i : Nat) : Option (Heap T) :=
  (h.data.modify i fun b => { b with count := b.count + 1 }).map Heap.mk

/-- Overwrite the payload of a live entry, keeping its count (models
`heap.get(i)` followed by in-place mutation of the returned `&mut T`). -/
def setData {T : Type} (h : Heap T) (i : Nat) (d : T) : Option (Heap T) :=
  (h.data.modify i fun b => { b with data := d }).map Heap.mk

/-- Remove the entry at `i` from the arena (the `self.data.remove(index)`
call inside `Heap::decr`). -/
def removeEntry {T : Type} (h : Heap T) (i : Nat) : Heap T :=
  ⟨(h.data.remove i).2⟩

/-- `Heap::decr` (src/heap.rs lines 239-267): panics (`none`) when the index
is not live; removes the entry when its count is 1; decrements when the
count is greater than 1; panics on a (normally unreachable) zero count. -/
def decr {T : Type} (h : Heap T) (i : Nat) : Option (Heap T) :=
  if h.contains_key i then
    match h.data.get? i with
    | none => none
    | some blob =>
      if blob.count = 1 then
        some (h.removeEntry i)
      else if blob.count > 1 then
        (h.data.modify i fun b => { b with count := b.count - 1 }).map Heap.mk
      else
        none
  else
    none

/-- `Heap::len` of the underlying arena (used only to compute recursion fuel
for the GC model). -/
def size {T : Type} (h : Heap T) : Nat := h.data.len

end Heap

/-! ## Container payloads. -/

/-- `HashMap<String, Data>` modelled as an association list with unique keys
(insertion order; `HashMap` iteration order is unspecified). -/
abbrev ObjMap := List (String × Data)

/-- `HashMap::insert`: replace the value at an existing key (returning the
old value) or append a new binding (returning `none`). -/
def mapInsert (m : ObjMap) (k : String) (v : Data) : Option Data × ObjMap :=
  match m with
  | [] => (none, [(k, v)])
  | (k', v') :: rest =>
    if k' = k then (some v', (k', v) :: rest)
    else
      let p := mapInsert rest k v
      (p.1, (k', v') :: p.2)

/-- `HashMap::remove`: remove the binding at `k`, returning the old value. -/
def mapRemove (m : ObjMap) (k : String) : Option Data × ObjMap :=
  match m with
  | [] => (none, [])
  | (k', v') :: rest =>
    if k' = k then (some v', rest)
    else
      let p := mapRemove rest k
      (p.1, (k', v') :: p.2)

/-- `HashMap::get` (cloned out, as in the source). -/
def mapGet? (m : ObjMap) (k : String) : Option Data :=
  match m with
  | [] => none
  | (k', v') :: rest => if k' = k then some v' else mapGet? rest k

/-- `DataStream` (src/databytes.rs): byte buffer with open/closed streaming
state.  Bytes are modelled as `Nat`. -/
structure DataStream where
  data : List Nat
  len : Nat
  read_open : Bool
  write_open : Bool
  mime_type : Option String
deriving DecidableEq, Repr

namespace DataStream

/-- `DataStream::new`: empty buffer, both ends open. -/
def new : DataStream := ⟨[], 0, true, true, none⟩

/-- `DataStream::from_bytes`: read-only stream over a fixed buffer. -/
def from_bytes (buf : List Nat) : DataStream :=
  ⟨buf, buf.length, true, false, none⟩

end DataStream

/-! ## Global state.

The three static heaps (`OBJECT_HEAP`, `ARRAY_HEAP`, `BH`) and the three
pending-drop queues (`OBJECT_DROP_QUEUE`, `ARRAY_DROP_QUEUE`, `BD`) become
one explicit state record.  Drop queues are pushed at the back and drained
front to back. -/
structure NState where
  oheap : Heap ObjMap
  aheap : Heap (List Data)
  bheap : Heap DataStream
  odrop : List Nat
  adrop : List Nat
  bdrop : List Nat

/-- The freshly initialized state (`ndata::init` with empty heaps). -/
def NState.initial : NState :=
  ⟨Heap.new, Heap.new, Heap.new, [], [], []⟩

/-- The three per-kind stores, in the fixed lock order of the crate. -/
inductive Store where
  | obj
  | arr
  | bytes
deriving DecidableEq, Repr

/-- Which store a handle-valued `Data` points into. -/
def Data.store? : Data → Option Store
  | .DObject _ => some .obj
  | .DArray _ => some .arr
  | .DBytes _ => some .bytes
  | _ => none

/-- The heap index a handle-valued `Data` carries. -/
def Data.targetRef? : Data → Option Nat
  | .DObject i => some i
  | .DArray i => some i
  | .DBytes i => some i
  | _ => none

/-- Reference count of index `i` in the given store of `st`. -/
def storeCount (st : NState) : Store → Nat → Option Nat
  | .obj, i => st.oheap.count? i
  | .arr, i => st.aheap.count? i
  | .bytes, i => st.bheap.count? i

/-- Liveness of index `i` in the given store of `st`. -/
def storeContains (st : NState) : Store → Nat → Bool
  | .obj, i => st.oheap.contains_key i
  | .arr, i => st.aheap.contains_key i
  | .bytes, i => st.bheap.contains_key i

/-- Pending-drop queue of the given store. -/
def storeQueue (st : NState) : Store → List Nat
  | .obj => st.odrop
  | .arr => st.adrop
  | .bytes => st.bdrop

/-- Dropping a reconstructed `Data` handle (the `let _ = DataObject
{ data_ref: i }` pattern used by `set_property` / `remove_property` /
`remove_data` for a replaced or removed old value): if the old value was
handle-bearing, its index is pushed onto that store's drop queue. -/
def queueOld (st : NState) : Option Data → NState
  | some (.DObject i) => { st with odrop := st.odrop ++ [i] }
  | some (.DArray i) => { st with adrop := st.adrop ++ [i] }
  | some (.DBytes i) => { st with bdrop := st.bdrop ++ [i] }
  | _ => st

/-- The drop-queue entries contributed to store `s` when the reconstructed
handle of a replaced old value is dropped: the old value's index when it is
a handle into `s`, nothing otherwise. -/
def queuedFrom : Option Data → Store → List Nat
  | some (.DObject i), .obj => [i]
  | some (.DArray i), .arr => [i]
  | some (.DBytes i), .bytes => [i]
  | _, _ => []

/-- The `match &data { .. incr .. }` prologue of `DataArray::push_property`
and `DataArray::set_property`: increment the target count of a
handle-bearing value (panic = `none` on a dead target). -/
def incrByKind (st : NState) : Data → Option NState
  | .DObject i => (st.oheap.incr i).map fun oh => { st with oheap := oh }
  | .DArray i => (st.aheap.incr i).map fun ah => { st with aheap := ah }
  | .DBytes i => (st.bheap.incr i).map fun bh => { st with bheap := bh }
  | _ => some st

/-- The rollback `match &data { .. decr .. }` blocks of the same functions. -/
def decrByKind (st : NState) : Data → Option NState
  | .DObject i => (st.oheap.decr i).map fun oh => { st with oheap := oh }
  | .DArray i => (st.aheap.decr i).map fun ah => { st with aheap := ah }
  | .DBytes i => (st.bheap.decr i).map fun bh => { st with bheap := bh }
  | _ => some st

/-! ## `DataObject` (src/dataobject.rs). -/

namespace DataObject

/-- `DataObject::new`: push an empty map, count 1; returns the new
`data_ref`. -/
def new (st : NState) : Option (Nat × NState) :=
  (st.oheap.push []).map fun p => (p.1, { st with oheap := p.2 })

/-- `impl Clone for DataObject` and `DataObject::get(data_ref)`: both
increment the count of `data_ref` and yield a handle carrying the same
index (the handle is just the index, so only the state effect is modelled;
panics on a dead index). -/
def cloneHandle (st : NState) (data_ref : Nat) : Option NState :=
  (st.oheap.incr data_ref).map fun oh => { st with oheap := oh }

/-- `impl Drop for DataObject`: push the index onto the object drop queue.
No reference count is touched. -/
def dropHandle (st : NState) (data_ref : Nat) : NState :=
  { st with odrop := st.odrop ++ [data_ref] }

/-- `DataObject::set_property` (src/dataobject.rs lines 490-566).
For a handle-bearing value the target's count is incremented first (panic =
`none` on a dead target).  If the receiving object is not live: the
`DObject` branch rolls the increment back and returns; the `DArray` and
`DBytes` branches return without rolling back (as in the source).  Otherwise
the binding is inserted and a replaced handle-bearing old value is queued
onto its store's drop queue via the reconstructed-handle drop. -/
def set_property (st : NState) (self_ref : Nat) (key : String) (data : Data) :
    Option NState :=
  match data with
  | .DObject new_obj_ref =>
    (st.oheap.incr new_obj_ref).bind fun oh =>
      if ¬ oh.contains_key self_ref then
        (oh.decr new_obj_ref).map fun oh2 => { st with oheap := oh2 }
      else
        (oh.get? self_ref).bind fun map =>
          let p := mapInsert map key data
          (oh.setData self_ref p.2).map fun oh2 =>
            queueOld { st with oheap := oh2 } p.1
  | .DArray new_arr_ref =>
    (st.aheap.incr new_arr_ref).bind fun ah =>
      if ¬ st.oheap.contains_key self_ref then
        some { st with aheap := ah }
      else
        (st.oheap.get? self_ref).bind fun map =>
          let p := mapInsert map key data
          (st.oheap.setData self_ref p.2).map fun oh2 =>
            queueOld { st with oheap := oh2, aheap := ah } p.1
  | .DBytes new_bytes_ref =>
    (st.bheap.incr new_bytes_ref).bind fun bh =>
      if ¬ st.oheap.contains_key self_ref then
        some { st with bheap := bh }
      else
        (st.oheap.get? self_ref).bind fun map =>
          let p := mapInsert map key data
          (st.oheap.setData self_ref p.2).map fun oh2 =>
            queueOld { st with oheap := oh2, bheap := bh } p.1
  | _ =>
    if ¬ st.oheap.contains_key self_ref then
      some st
    else
      (st.oheap.get? self_ref).bind fun map =>
        let p := mapInsert map key data
        (st.oheap.setData self_ref p.2).map fun oh2 =>
          queueOld { st with oheap := oh2 } p.1

/-- `DataObject::put_object(key, o)`: `set_property` with the handle's index,
after which the moved-in handle `o` is dropped (queueing one decrement). -/
def put_object (st : NState) (self_ref : Nat) (key : String) (o_ref : Nat) :
    Option NState :=
  (set_property st self_ref key (.DObject o_ref)).map fun st1 =>
    dropHandle st1 o_ref

end DataObject

/-! ## `DataArray` (src/dataarray.rs). -/

namespace DataArray

/-- `DataArray::new`. -/
def new (st : NState) : Option (Nat × NState) :=
  (st.aheap.push []).map fun p => (p.1, { st with aheap := p.2 })

/-- `impl Clone for DataArray` / `DataArray::get`. -/
def cloneHandle (st : NState) (data_ref : Nat) : Option NState :=
  (st.aheap.incr data_ref).map fun ah => { st with aheap := ah }

/-- `impl Drop for DataArray`. -/
def dropHandle (st : NState) (data_ref : Nat) : NState :=
  { st with adrop := st.adrop ++ [data_ref] }

/-- `DataArray::push_property` (src/dataarray.rs lines 595-617): increment
the target count of a handle-bearing value, then append to the vector;
when the receiving array is not live, roll the increment back and return. -/
def push_property (st : NState) (self_ref : Nat) (data : Data) : Option NState :=
  (incrByKind st data).bind fun st1 =>
    if ¬ st1.aheap.contains_key self_ref then
      decrByKind st1 data
    else
      (st1.aheap.get? self_ref).bind fun vec =>
        (st1.aheap.setData self_ref (vec ++ [data])).map fun ah =>
          { st1 with aheap := ah }

/-- `DataArray::set_property` (src/dataarray.rs lines 643-687): increment
the target count of a handle-bearing value; when the receiving array is not
live, roll back and return; when the index is out of bounds, roll back and
panic (`none`); otherwise replace the element and queue a replaced
handle-bearing old value. -/
def set_property (st : NState) (self_ref : Nat) (id : Nat) (data : Data) :
    Option NState :=
  (incrByKind st data).bind fun st1 =>
    if ¬ st1.aheap.contains_key self_ref then
      decrByKind st1 data
    else
      (st1.aheap.get? self_ref).bind fun vec =>
        if id < vec.length then
          let old := vec.getD id .DNull
          (st1.aheap.setData self_ref (vec.set id data)).map fun ah =>
            queueOld { st1 with aheap := ah } (some old)
        else
          (decrByKind st1 data).bind fun _ => none

/-- `DataArray::index_of` (src/dataarray.rs lines 312-321): position of the
first element `Data::equals` to `b`, or `-1`. -/
def index_of (st : NState) (self_ref : Nat) (b : Data) : Int :=
  if ¬ st.aheap.contains_key self_ref then -1
  else
    match st.aheap.get? self_ref with
    | none => -1
    | some vec =>
      match vec.findIdx? (fun d => Data.equals d b) with
      | some i => (i : Int)
      | none => -1

end DataArray

/-! ## `DataBytes` (src/databytes.rs). -/

namespace DataBytes

/-- `DataBytes::new`. -/
def new (st : NState) : Option (Nat × NState) :=
  (st.bheap.push DataStream.new).map fun p => (p.1, { st with bheap := p.2 })

/-- `impl Clone for DataBytes` / `DataBytes::get`. -/
def cloneHandle (st : NState) (data_ref : Nat) : Option NState :=
  (st.bheap.incr data_ref).map fun bh => { st with bheap := bh }

/-- `impl Drop for DataBytes`. -/
def dropHandle (st : NState) (data_ref : Nat) : NState :=
  { st with bdrop := st.bdrop ++ [data_ref] }

/-- `DataBytes::write` (src/databytes.rs lines 164-183): returns `false`
without writing when the ref is invalid or when the stream is not both
write-open and read-open; otherwise appends `buf` and returns `true`. -/
def write (st : NState) (data_ref : Nat) (buf : List Nat) : NState × Bool :=
  if ¬ st.bheap.contains_key data_ref then (st, false)
  else
    match st.bheap.get? data_ref with
    | none => (st, false)
    | some stream =>
      if ¬ stream.write_open ∨ ¬ stream.read_open then (st, false)
      else
        match st.bheap.setData data_ref { stream with data := stream.data ++ buf } with
        | some bh => ({ st with bheap := bh }, true)
        | none => (st, false)

/-- `DataBytes::read` (src/databytes.rs lines 185-202): panics (`none`) on an
invalid ref or a closed read side; otherwise removes and returns the first
`min n len` bytes, and closes the read side when the write side is closed
and no bytes remain. -/
def read (st : NState) (data_ref : Nat) (n : Nat) : Option (NState × List Nat) :=
  if ¬ st.bheap.contains_key data_ref then none
  else
    (st.bheap.get? data_ref).bind fun stream =>
      if ¬ stream.read_open then none
      else
        let num_to_read := min n stream.data.length
        let d := stream.data.take num_to_read
        let stream1 := { stream with data := stream.data.drop num_to_read }
        let stream2 :=
          if ¬ stream1.write_open ∧ stream1.data.isEmpty then
            { stream1 with read_open := false }
          else stream1
        (st.bheap.setData data_ref stream2).map fun bh =>
          ({ st with bheap := bh }, d)

/-- `DataBytes::close_read`: panics (`none`) on an invalid ref. -/
def close_read (st : NState) (data_ref : Nat) : Option NState :=
  if ¬ st.bheap.contains_key data_ref then none
  else
    (st.bheap.get? data_ref).bind fun stream =>
      (st.bheap.setData data_ref { stream with read_open := false }).map fun bh =>
        { st with bheap := bh }

/-- `DataBytes::close_write`: panics (`none`) on an invalid ref. -/
def close_write (st : NState) (data_ref : Nat) : Option NState :=
  if ¬ st.bheap.contains_key data_ref then none
  else
    (st.bheap.get? data_ref).bind fun stream =>
      (st.bheap.setData data_ref { stream with write_open := false }).map fun bh =>
        { st with bheap := bh }

end DataBytes

/-! ## Recursive collection (`delete`) and `gc`.

`DataObject::delete` and `DataArray::delete` are mutually recursive.  The
Rust recursion terminates because a recursive call is made only after the
parent entry has been removed from its arena; the Lean model adds an
explicit `fuel` parameter (structural recursion), and `gc` supplies fuel
strictly larger than the total number of live entries, which the Rust
recursion depth can never exceed. -/

/-- The object-handle indices held by an object map, in iteration order
(the `objects_to_kill` snapshot of `DataObject::delete`). -/
def objChildrenOfMap (m : ObjMap) : List Nat :=
  (m.map Prod.snd).filterMap fun d =>
    match d with
    | .DObject i => some i
    | _ => none

/-- The array-handle indices held by an object map (`arrays_to_kill`). -/
def arrChildrenOfMap (m : ObjMap) : List Nat :=
  (m.map Prod.snd).filterMap fun d =>
    match d with
    | .DArray i => some i
    | _ => none

/-- The object-handle indices held by an array vector. -/
def objChildrenOfVec (v : List Data) : List Nat :=
  v.filterMap fun d =>
    match d with
    | .DObject i => some i
    | _ => none

/-- The array-handle indices held by an array vector. -/
def arrChildrenOfVec (v : List Data) : List Nat :=
  v.filterMap fun d =>
    match d with
    | .DArray i => some i
    | _ => none

mutual

/-- `DataObject::delete` (src/dataobject.rs lines 605-661): no-op on a
non-live ref or (unreachably) a zero count; when the count is 1, snapshot
the object- and array-handle children (`DBytes` handles are not walked),
decrement (removing the entry), then recursively delete each snapshotted
child; when the count is greater than 1, only decrement.  The two `decr`
calls cannot panic (liveness and the count were just checked under the same
lock), so their `none` branches return the state unchanged. -/
def objDelete : Nat → Heap ObjMap → Nat → Heap (List Data) →
    Heap ObjMap × Heap (List Data)
  | 0, oh, _, ah => (oh, ah)
  | fuel + 1, oh, data_ref, ah =>
    if ¬ oh.contains_key data_ref then (oh, ah)
    else
      match oh.get? data_ref, oh.count? data_ref with
      | some map, some current_count =>
        if current_count = 0 then (oh, ah)
        else if current_count = 1 then
          let objects_to_kill := objChildrenOfMap map
          let arrays_to_kill := arrChildrenOfMap map
          match oh.decr data_ref with
          | none => (oh, ah)
          | some oh1 =>
            let p := objects_to_kill.foldl
              (fun (p : Heap ObjMap × Heap (List Data)) i => objDelete fuel p.1 i p.2)
              (oh1, ah)
            let q := arrays_to_kill.foldl
              (fun (q : Heap (List Data) × Heap ObjMap) i => arrDelete fuel q.1 i q.2)
              (p.2, p.1)
            (q.2, q.1)
        else
          match oh.decr data_ref with
          | none => (oh, ah)
          | some oh1 => (oh1, ah)
      | _, _ => (oh, ah)

/-- `DataArray::delete` (src/dataarray.rs lines 750-795): the array-store
counterpart of `objDelete`, with the same two-phase structure. -/
def arrDelete : Nat → Heap (List Data) → Nat → Heap ObjMap →
    Heap (List Data) × Heap ObjMap
  | 0, ah, _, oh => (ah, oh)
  | fuel + 1, ah, data_ref, oh =>
    if ¬ ah.contains_key data_ref then (ah, oh)
    else
      match ah.get? data_ref, ah.count? data_ref with
      | some vec, some current_count =>
        if current_count = 0 then (ah, oh)
        else if current_count = 1 then
          let objects_to_kill := objChildrenOfVec vec
          let arrays_to_kill := arrChildrenOfVec vec
          match ah.decr data_ref with
          | none => (ah, oh)
          | some ah1 =>
            let p := objects_to_kill.foldl
              (fun (p : Heap ObjMap × Heap (List Data)) i => objDelete fuel p.1 i p.2)
              (oh, ah1)
            let q := arrays_to_kill.foldl
              (fun (q : Heap (List Data) × Heap ObjMap) i => arrDelete fuel q.1 i q.2)
              (p.2, p.1)
            (q.1, q.2)
        else
          match ah.decr data_ref with
          | none => (ah, oh)
          | some ah1 => (ah1, oh)
      | _, _ => (ah, oh)

end

/-- Fuel strictly exceeding every possible recursion depth of the deletes:
each nested call follows removal of an entry from one of the two heaps. -/
def gcFuel (st : NState) : Nat :=
  st.oheap.size + st.aheap.size + 1

/-- `DataObject::gc` (src/dataobject.rs lines 683-700): drain the object
drop queue, invoking `DataObject::delete` for each queued index. -/
def DataObject.gcRun (st : NState) : NState :=
  let fuel := gcFuel st
  let p := st.odrop.foldl
    (fun (p : Heap ObjMap × Heap (List Data)) r => objDelete fuel p.1 r p.2)
    (st.oheap, st.aheap)
  { st with oheap := p.1, aheap := p.2, odrop := [] }

/-- `DataArray::gc` (src/dataarray.rs lines 814-822). -/
def DataArray.gcRun (st : NState) : NState :=
  let fuel := gcFuel st
  let p := st.adrop.foldl
    (fun (p : Heap (List Data) × Heap ObjMap) r => arrDelete fuel p.1 r p.2)
    (st.aheap, st.oheap)
  { st with aheap := p.1, oheap := p.2, adrop := [] }

/-- `DataBytes::gc` (src/databytes.rs lines 498-510): drain the bytes drop
queue; for each index that is still live, decrement (the guarded `decr`
cannot hit the invalid-index panic; the zero-count panic is unreachable
through the API and is modelled as a no-op). -/
def DataBytes.gcRun (st : NState) : NState :=
  let bh := st.bdrop.foldl
    (fun (h : Heap DataStream) r =>
      if h.contains_key r then (h.decr r).getD h else h)
    st.bheap
  { st with bheap := bh, bdrop := [] }

/-- `ndata::gc` (src/ndata.rs lines 83-87): `DataObject::gc`, then
`DataArray::gc`, then `DataBytes::gc`. -/
def gc (st : NState) : NState :=
  DataBytes.gcRun (DataArray.gcRun (DataObject.gcRun st))

/-! ## Basic lemmas about the arena and the heap. -/

namespace UsizeMap

theorem contains_key_eq_isSome_slot {T : Type} (m : UsizeMap T) (k : Nat) :
    m.contains_key k = (m.get? k).isSome := rfl

theorem get?_eq_some_elim {T : Type} {m : UsizeMap T} {k : Nat} {v : T}
    (hv : m.get? k = some v) : m.data[k]? = some (some v) := by
  unfold get? at hv
  rw [List.getD_eq_getElem?_getD] at hv
  cases h : m.data[k]? with
  | none => rw [h] at hv; simp at hv
  | some o =>
    rw [h] at hv
    simp only [Option.getD_some] at hv
    rw [hv]

theorem lt_length_of_get?_eq_some {T : Type} {m : UsizeMap T} {k : Nat} {v : T}
    (hv : m.get? k = some v) : k < m.data.length := by
  have h := get?_eq_some_elim hv
  obtain ⟨hlt, -⟩ := List.getElem?_eq_some.mp h
  exact hlt

theorem modify_spec {T : Type} (m : UsizeMap T) (k : Nat) (f : T → T) (v : T)
    (hv : m.get? k = some v) :
    ∃ m', m.modify k f = some m' ∧
      m'.get? k = some (f v) ∧
      (∀ j, j ≠ k → m'.get? j = m.get? j) ∧
      m'.count = m.count ∧ m'.empty = m.empty ∧
      m'.data.length = m.data.length := by
  have hk := lt_length_of_get?_eq_some hv
  have helem := get?_eq_some_elim hv
  refine ⟨{ m with data := m.data.set k (some (f v)) }, ?_, ?_, ?_, rfl, rfl, by simp⟩
  · unfold modify
    unfold get? at hv
    rw [hv]
  · unfold get?
    rw [List.getD_eq_getElem?_getD, List.getElem?_set_eq_of_lt _ hk]
    rfl
  · intro j hj
    unfold get?
    rw [List.getD_eq_getElem?_getD, List.getD_eq_getElem?_getD,
      List.getElem?_set_ne (fun h => hj h.symm)]

theorem remove_spec {T : Type} (m : UsizeMap T) (k : Nat) (v : T)
    (hv : m.get? k = some v) :
    (m.remove k).1 = some v ∧
      (m.remove k).2.get? k = none ∧
      (∀ j, j ≠ k → (m.remove k).2.get? j = m.get? j) ∧
      (m.remove k).2.count = m.count - 1 ∧
      (m.remove k).2.empty = k :: m.empty ∧
      (m.remove k).2.data.length = m.data.length := by
  have hk := lt_length_of_get?_eq_some hv
  unfold get? at hv
  unfold remove
  rw [hv]
  refine ⟨rfl, ?_, ?_, rfl, rfl, by simp⟩
  · unfold get?
    simp only
    rw [List.getD_eq_getElem?_getD, List.getElem?_set_eq_of_lt _ hk]
    rfl
  · intro j hj
    unfold get?
    simp only
    rw [List.getD_eq_getElem?_getD, List.getD_eq_getElem?_getD,
      List.getElem?_set_ne (fun h => hj h.symm)]

theorem get?_eq_none_of_not_contains {T : Type} {m : UsizeMap T} {k : Nat}
    (h : m.contains_key k = false) : m.get? k = none := by
  rw [contains_key_eq_isSome_slot] at h
  exact Option.not_isSome_iff_eq_none.mp (by simp [h])

end UsizeMap

namespace Heap

theorem contains_key_eq_isSome_get? {T : Type} (h : Heap T) (i : Nat) :
    h.contains_key i = (h.get? i).isSome := by
  unfold contains_key get?
  rw [UsizeMap.contains_key_eq_isSome_slot]
  cases h.data.get? i <;> rfl

theorem get?_data_of_blob {T : Type} {h : Heap T} {i : Nat} {b : Blob T}
    (hb : h.data.get? i = some b) : h.get? i = some b.data := by
  unfold get?; rw [hb]; rfl

theorem count?_of_blob {T : Type} {h : Heap T} {i : Nat} {b : Blob T}
    (hb : h.data.get? i = some b) : h.count? i = some b.count := by
  unfold count?; rw [hb]; rfl

theorem blob_of_get?_count? {T : Type} {h : Heap T} {i : Nat} {d : T} {c : Nat}
    (hd : h.get? i = some d) (hc : h.count? i = some c) :
    h.data.get? i = some ⟨d, c⟩ := by
  unfold get? at hd
  unfold count? at hc
  cases hb : h.data.get? i with
  | none => rw [hb] at hd; simp at hd
  | some b =>
    rw [hb] at hd hc
    simp only [Option.map_some', Option.some_inj] at hd hc
    subst hd
    subst hc
    rfl

theorem contains_of_get? {T : Type} {h : Heap T} {i : Nat} {d : T}
    (hd : h.get? i = some d) : h.contains_key i = true := by
  rw [contains_key_eq_isSome_get?, hd]; rfl

/-- `Heap::incr` on a live entry: the count rises by one, the payload and
every other entry are untouched, liveness is unchanged everywhere. -/
theorem incr_spec {T : Type} (h : Heap T) (i : Nat) (b : Blob T)
    (hb : h.data.get? i = some b) :
    ∃ h', h.incr i = some h' ∧
      h'.data.get? i = some ⟨b.data, b.count + 1⟩ ∧
      (∀ j, j ≠ i → h'.data.get? j = h.data.get? j) ∧
      (∀ j, h'.contains_key j = h.contains_key j) ∧
      h'.data.count = h.data.count := by
  obtain ⟨m', hm', hget, hother, hcount, _hempty, _hlen⟩ :=
    UsizeMap.modify_spec h.data i (fun b => { b with count := b.count + 1 }) b hb
  refine ⟨⟨m'⟩, ?_, hget, fun j hj => hother j hj, ?_, hcount⟩
  · unfold incr
    rw [hm']
    rfl
  · intro j
    unfold contains_key
    rw [UsizeMap.contains_key_eq_isSome_slot, UsizeMap.contains_key_eq_isSome_slot]
    by_cases hj : j = i
    · subst hj; rw [hget, hb]; rfl
    · rw [hother j hj]

/-- `Heap` payload overwrite (in-place mutation through `get`): the payload
changes, all counts and liveness are untouched. -/
theorem setData_spec {T : Type} (h : Heap T) (i : Nat) (d : T) (b : Blob T)
    (hb : h.data.get? i = some b) :
    ∃ h', h.setData i d = some h' ∧
      h'.data.get? i = some ⟨d, b.count⟩ ∧
      (∀ j, j ≠ i → h'.data.get? j = h.data.get? j) ∧
      (∀ j, h'.contains_key j = h.contains_key j) ∧
      (∀ j, h'.count? j = h.count? j) ∧
      h'.data.count = h.data.count := by
  obtain ⟨m', hm', hget, hother, hcount, _hempty, _hlen⟩ :=
    UsizeMap.modify_spec h.data i (fun b => { b with data := d }) b hb
  refine ⟨⟨m'⟩, ?_, hget, fun j hj => hother j hj, ?_, ?_, hcount⟩
  · unfold setData
    rw [hm']
    rfl
  · intro j
    unfold contains_key
    rw [UsizeMap.contains_key_eq_isSome_slot, UsizeMap.contains_key_eq_isSome_slot]
    by_cases hj : j = i
    · subst hj; rw [hget, hb]; rfl
    · rw [hother j hj]
  · intro j
    unfold count?
    by_cases hj : j = i
    · subst hj; rw [hget, hb]; rfl
    · rw [hother j hj]

/-- `Heap::decr` on a live entry with count 1 removes the entry. -/
theorem decr_remove {T : Type} (h : Heap T) (i : Nat) (b : Blob T)
    (hb : h.data.get? i = some b) (hc : b.count = 1) :
    h.decr i = some (h.removeEntry i) ∧
      (h.removeEntry i).contains_key i = false ∧
      (∀ j, j ≠ i → (h.removeEntry i).data.get? j = h.data.get? j) := by
  obtain ⟨_h1, hnone, hother, _⟩ := UsizeMap.remove_spec h.data i b hb
  have hcontains : h.contains_key i = true := by
    unfold contains_key
    rw [UsizeMap.contains_key_eq_isSome_slot, hb]; rfl
  refine ⟨?_, ?_, fun j hj => hother j hj⟩
  · unfold decr
    rw [hcontains, hb]
    simp [hc]
  · unfold removeEntry contains_key
    rw [UsizeMap.contains_key_eq_isSome_slot, hnone]
    rfl

/-- `Heap::decr` on a live entry with count greater than 1 only decrements. -/
theorem decr_decrement {T : Type} (h : Heap T) (i : Nat) (b : Blob T)
    (hb : h.data.get? i = some b) (hc : 1 < b.count) :
    ∃ h', h.decr i = some h' ∧
      h'.data.get? i = some ⟨b.data, b.count - 1⟩ ∧
      (∀ j, j ≠ i → h'.data.get? j = h.data.get? j) ∧
      (∀ j, h'.contains_key j = h.contains_key j) := by
  obtain ⟨m', hm', hget, hother, _⟩ :=
    UsizeMap.modify_spec h.data i (fun b => { b with count := b.count - 1 }) b hb
  have hcontains : h.contains_key i = true := by
    unfold contains_key
    rw [UsizeMap.contains_key_eq_isSome_slot, hb]; rfl
  refine ⟨⟨m'⟩, ?_, hget, fun j hj => hother j hj, ?_⟩
  · unfold decr
    rw [hcontains, hb]
    have hne : ¬ b.count = 1 := by omega
    simp only [hne, if_false, hc, if_true]
    rw [hm']
    rfl
  · intro j
    unfold contains_key
    rw [UsizeMap.contains_key_eq_isSome_slot, UsizeMap.contains_key_eq_isSome_slot]
    by_cases hj : j = i
    · subst hj; rw [hget, hb]; rfl
    · rw [hother j hj]

/-- `Heap::decr` panics on a non-live index. -/
theorem decr_not_contains {T : Type} (h : Heap T) (i : Nat)
    (hc : h.contains_key i = false) : h.decr i = none := by
  unfold decr
  rw [hc]
  rfl

theorem get?_congr {T : Type} {h h' : Heap T} {i : Nat}
    (he : h'.data.get? i = h.data.get? i) : h'.get? i = h.get? i := by
  unfold get?
  rw [he]

theorem count?_congr {T : Type} {h h' : Heap T} {i : Nat}
    (he : h'.data.get? i = h.data.get? i) : h'.count? i = h.count? i := by
  unfold count?
  rw [he]

theorem exists_get?_of_contains {T : Type} {h : Heap T} {i : Nat}
    (hc : h.contains_key i = true) : ∃ d, h.get? i = some d := by
  rw [contains_key_eq_isSome_get?] at hc
  exact Option.isSome_iff_exists.mp hc

theorem exists_blob_of_get? {T : Type} {h : Heap T} {i : Nat} {d : T}
    (hd : h.get? i = some d) : ∃ b : Blob T, h.data.get? i = some b ∧ b.data = d := by
  unfold get? at hd
  cases hb : h.data.get? i with
  | none => rw [hb] at hd; simp at hd
  | some b =>
    rw [hb] at hd
    simp only [Option.map_some', Option.some_inj] at hd
    exact ⟨b, rfl, hd⟩

end Heap

/-- Dropping a reconstructed old-value handle touches no heap. -/
theorem queueOld_oheap (st : NState) (old : Option Data) :
    (queueOld st old).oheap = st.oheap := by
  cases old with
  | none => rfl
  | some d => cases d <;> rfl

theorem queueOld_aheap (st : NState) (old : Option Data) :
    (queueOld st old).aheap = st.aheap := by
  cases old with
  | none => rfl
  | some d => cases d <;> rfl

theorem queueOld_bheap (st : NState) (old : Option Data) :
    (queueOld st old).bheap = st.bheap := by
  cases old with
  | none => rfl
  | some d => cases d <;> rfl

/-- Dropping a reconstructed old-value handle appends exactly the
`queuedFrom` entries to each store's pending queue. -/
theorem storeQueue_queueOld (st : NState) (old : Option Data) (s' : Store) :
    storeQueue (queueOld st old) s' = storeQueue st s' ++ queuedFrom old s' := by
  cases old with
  | none => cases s' <;> simp [queueOld, queuedFrom, storeQueue]
  | some d => cases d <;> cases s' <;> simp [queueOld, queuedFrom, storeQueue]

/-! ## Concrete scenarios. -/

/-- The cycle-collection scenario of the spec (§8 "Cycle collection"):
```
let mut a = DataObject::new();          // index 0
let mut b = DataObject::new();          // index 1
a.put_object("b", b.clone());
b.put_object("a", a.clone());
drop(a); drop(b);
ndata::gc();
```
Both host-held live handles are dropped and the collector runs. -/
def cycleScenario : Option NState :=
  (DataObject.new NState.initial).bind fun pa =>
  (DataObject.new pa.2).bind fun pb =>
  (DataObject.cloneHandle pb.2 pb.1).bind fun st3 =>
  (DataObject.put_object st3 pa.1 "b" pb.1).bind fun st4 =>
  (DataObject.cloneHandle st4 pa.1).bind fun st5 =>
  (DataObject.put_object st5 pb.1 "a" pa.1).bind fun st6 =>
  some (gc (DataObject.dropHandle (DataObject.dropHandle st6 pa.1) pb.1))

/-- A live stream whose read side has been closed while its write side is
still open:
```
let b = DataBytes::new();               // index 0
b.close_read();
b.write(&[7])
```
-/
def closedReadScenario : Option (NState × Nat) :=
  (DataBytes.new NState.initial).bind fun pb =>
  (DataBytes.close_read pb.2 pb.1).map fun st2 => (st2, pb.1)

/-! ## Lock-acquisition traces.

The `SharedMutex` guards themselves are not shallowly embeddable (they are
the concurrency primitive), but the *order* in which each operation
acquires and releases the three store heap locks is a static property of
each code path.  Each trace below lists, in program order, the heap-lock
acquisitions and releases of one code path of the named source function
(`lock()` = `acq`, guard drop = `rel`).  The per-store pending-drop-queue
mutexes are disjoint from the heap locks and are not part of the claimed
Object → Array → Bytes order, so they are not traced. -/

/-- One lock event on a store's heap mutex. -/
inductive LockEvent where
  | acq (s : Store)
  | rel (s : Store)
deriving DecidableEq, Repr

/-- Position of a store in the fixed global order Object → Array → Bytes. -/
def Store.rank : Store → Nat
  | .obj => 0
  | .arr => 1
  | .bytes => 2

/-- Checks a trace against the claimed discipline: an acquisition of store
`s` is legal only while every held lock belongs to a store that does not
come later than `s` in the fixed order. -/
def respectsOrderFrom : List Store → List LockEvent → Bool
  | _, [] => true
  | held, .acq s :: rest =>
    held.all (fun t => t.rank ≤ s.rank) && respectsOrderFrom (s :: held) rest
  | held, .rel s :: rest => respectsOrderFrom (held.erase s) rest

/-- A trace respects the fixed order when it does so starting from no held
locks. -/
def respectsOrder (tr : List LockEvent) : Bool :=
  respectsOrderFrom [] tr

/-- Heap-lock trace of `DataObject::set_property` (src/dataobject.rs lines
490-566), by the store kind of the value being stored (`none` = scalar).
The `DArray`/`DBytes` branches acquire the other store's lock in an inner
scope while holding the object lock. -/
def DataObject.setPropertyLocks : Option Store → List LockEvent
  | some .obj => [.acq .obj, .rel .obj]
  | some .arr => [.acq .obj, .acq .arr, .rel .arr, .rel .obj]
  | some .bytes => [.acq .obj, .acq .bytes, .rel .bytes, .rel .obj]
  | none => [.acq .obj, .rel .obj]

/-- Heap-lock trace of `DataArray::push_property` (src/dataarray.rs lines
595-617): the incr prologue locks the target's store and releases it, then
the array lock is taken; on the invalid-target path the rollback decr locks
the target's store again *while the array lock is held*. -/
def DataArray.pushPropertyLocks (k : Option Store) (targetMissing : Bool) :
    List LockEvent :=
  (match k with
   | some .obj => [.acq .obj, .rel .obj]
   | some .arr => [.acq .arr, .rel .arr]
   | some .bytes => [.acq .bytes, .rel .bytes]
   | none => [])
  ++ [.acq .arr]
  ++ (if targetMissing then
       match k with
       | some .obj => [.acq .obj, .rel .obj]
       | some .arr => [.acq .arr, .rel .arr]
       | some .bytes => [.acq .bytes, .rel .bytes]
       | none => []
     else [])
  ++ [.rel .arr]

/-- Heap-lock trace of `DataArray::set_property` (src/dataarray.rs lines
643-687); same prologue/rollback shape as `push_property`, with the
out-of-bounds rollback also performed under the array lock (the guard is
released during the panic unwind). -/
def DataArray.setPropertyLocks (k : Option Store) (targetMissing oob : Bool) :
    List LockEvent :=
  (match k with
   | some .obj => [.acq .obj, .rel .obj]
   | some .arr => [.acq .arr, .rel .arr]
   | some .bytes => [.acq .bytes, .rel .bytes]
   | none => [])
  ++ [.acq .arr]
  ++ (if targetMissing ∨ oob then
       match k with
       | some .obj => [.acq .obj, .rel .obj]
       | some .arr => [.acq .arr, .rel .arr]
       | some .bytes => [.acq .bytes, .rel .bytes]
       | none => []
     else [])
  ++ [.rel .arr]

/-- Heap-lock trace of `DataArray::push_unique` (src/dataarray.rs lines
323-426) for an object-handle argument: the initial duplicate check under
the array lock; if not found, the object-heap incr; then the array lock for
the guarded push, under which both the disappeared-target rollback and the
duplicate rollback decrement the *object* heap while the array lock is
held. -/
def DataArray.pushUniqueObjLocks (found targetGone dup : Bool) : List LockEvent :=
  [.acq .arr, .rel .arr]
  ++ (if found then []
      else [.acq .obj, .rel .obj, .acq .arr]
        ++ (if targetGone then [.acq .obj, .rel .obj]
            else if dup then [.acq .obj, .rel .obj]
            else [])
        ++ [.rel .arr])

/-- Heap-lock trace of `DataArray::push_unique` for a bytes-handle argument
(src/dataarray.rs lines 391-408): the rollbacks lock the bytes heap while
the array lock is held. -/
def DataArray.pushUniqueBytesLocks (found targetGone dup : Bool) : List LockEvent :=
  [.acq .arr, .rel .arr]
  ++ (if found then []
      else [.acq .bytes, .rel .bytes, .acq .arr]
        ++ (if targetGone then [.acq .bytes, .rel .bytes]
            else if dup then [.acq .bytes, .rel .bytes]
            else [])
        ++ [.rel .arr])

/-- Heap-lock trace of `DataObject::gc` (src/dataobject.rs lines 683-700):
object heap, then array heap, released in reverse order. -/
def DataObject.gcLocks : List LockEvent :=
  [.acq .obj, .acq .arr, .rel .arr, .rel .obj]

/-- Heap-lock trace of `DataArray::gc` (src/dataarray.rs lines 814-822). -/
def DataArray.gcLocks : List LockEvent :=
  [.acq .obj, .acq .arr, .rel .arr, .rel .obj]

/-- Heap-lock trace of `DataBytes::gc` (src/databytes.rs lines 498-510). -/
def DataBytes.gcLocks : List LockEvent :=
  [.acq .bytes, .rel .bytes]

/-! ## Arena reachability and invariants (for the slot-reuse claim). -/

namespace UsizeMap

/-- Number of slots currently holding a value. -/
def countSome {T : Type} (l : List (Option T)) : Nat :=
  l.countP Option.isSome

/-- States of a `UsizeMap` reachable from `new` by any sequence of
(successful) `insert` and `remove` operations. -/
inductive Reachable {T : Type} : UsizeMap T → Prop where
  | new : Reachable UsizeMap.new
  | insert (m : UsizeMap T) (x : T) (k : Nat) (m' : UsizeMap T) :
      Reachable m → m.insert x = some (k, m') → Reachable m'
  | remove (m : UsizeMap T) (k : Nat) :
      Reachable m → Reachable (m.remove k).2

/-- The arena invariant: the tracked `count` equals the number of occupied
slots, every free-list index addresses an in-bounds `None` slot, and the
free list has no duplicates. -/
def Inv {T : Type} (m : UsizeMap T) : Prop :=
  m.count = countSome m.data ∧
    (∀ i ∈ m.empty, m.data[i]? = some none) ∧
    m.empty.Nodup

theorem countSome_set_some {T : Type} (l : List (Option T)) (i : Nat) (x : T)
    (hi : l[i]? = some none) :
    countSome (l.set i (some x)) = countSome l + 1 := by
  induction l generalizing i with
  | nil => simp at hi
  | cons hd tl ih =>
    cases i with
    | zero =>
      simp only [List.getElem?_cons_zero, Option.some_inj] at hi
      subst hi
      simp [countSome, List.countP_cons]
    | succ n =>
      simp only [List.getElem?_cons_succ] at hi
      simp only [List.set_cons_succ, countSome, List.countP_cons]
      have := ih n hi
      simp only [countSome] at this
      omega

theorem countSome_set_none {T : Type} (l : List (Option T)) (i : Nat) (v : T)
    (hi : l[i]? = some (some v)) :
    countSome (l.set i none) + 1 = countSome l := by
  induction l generalizing i with
  | nil => simp at hi
  | cons hd tl ih =>
    cases i with
    | zero =>
      simp only [List.getElem?_cons_zero, Option.some_inj] at hi
      subst hi
      simp [countSome, List.countP_cons]
    | succ n =>
      simp only [List.getElem?_cons_succ] at hi
      simp only [List.set_cons_succ, countSome, List.countP_cons]
      have := ih n hi
      simp only [countSome] at this
      omega

theorem countSome_append_some {T : Type} (l : List (Option T)) (x : T) :
    countSome (l ++ [some x]) = countSome l + 1 := by
  simp [countSome, List.countP_append]

/-- `Inv` holds for the empty arena. -/
theorem inv_new {T : Type} : Inv (UsizeMap.new : UsizeMap T) := by
  refine ⟨rfl, ?_, List.nodup_nil⟩
  intro i hi
  simp [new] at hi

/-- A successful `insert` preserves `Inv`. -/
theorem inv_insert {T : Type} {m : UsizeMap T} {x : T} {k : Nat} {m' : UsizeMap T}
    (hinv : Inv m) (hins : m.insert x = some (k, m')) : Inv m' := by
  obtain ⟨hcount, hempty, hnodup⟩ := hinv
  unfold insert at hins
  cases he : m.empty with
  | nil =>
    rw [he] at hins
    simp only [Option.some_inj, Prod.mk.injEq] at hins
    obtain ⟨hk, hm'⟩ := hins
    subst hm'
    refine ⟨?_, ?_, List.nodup_nil⟩
    · simp only
      rw [countSome_append_some, hcount]
    · intro i hi
      simp at hi
  | cons index rest =>
    have hidx : m.data[index]? = some none := hempty index (he ▸ List.mem_cons_self index rest)
    have hlt : index < m.data.length := (List.getElem?_eq_some.mp hidx).1
    have hnone : (m.data.getD index none).isNone = true := by
      rw [List.getD_eq_getElem?_getD, hidx]
      rfl
    rw [he] at hins
    dsimp only at hins
    rw [if_pos hlt, if_pos hnone] at hins
    simp only [Option.some_inj, Prod.mk.injEq] at hins
    obtain ⟨hk, hm'⟩ := hins
    subst hm'
    have hnodup' : (index :: rest).Nodup := he ▸ hnodup
    refine ⟨?_, ?_, (List.nodup_cons.mp hnodup').2⟩
    · simp only
      rw [countSome_set_some m.data index x hidx, hcount]
    · intro i hi
      simp only
      have hmem : i ∈ m.empty := he ▸ List.mem_cons_of_mem index hi
      have hne : i ≠ index := by
        intro h
        exact (List.nodup_cons.mp hnodup').1 (h ▸ hi)
      rw [List.getElem?_set_ne (fun h => hne h.symm)]
      exact hempty i hmem

/-- `remove` preserves `Inv`. -/
theorem inv_remove {T : Type} {m : UsizeMap T} (k : Nat)
    (hinv : Inv m) : Inv (m.remove k).2 := by
  obtain ⟨hcount, hempty, hnodup⟩ := hinv
  unfold remove
  cases hv : m.data.getD k none with
  | none => exact ⟨hcount, hempty, hnodup⟩
  | some v =>
    have hidx : m.data[k]? = some (some v) := by
      rw [List.getD_eq_getElem?_getD] at hv
      cases h : m.data[k]? with
      | none => rw [h] at hv; simp at hv
      | some o =>
        rw [h] at hv
        simp only [Option.getD_some] at hv
        rw [hv]
    have hlt : k < m.data.length := (List.getElem?_eq_some.mp hidx).1
    refine ⟨?_, ?_, ?_⟩
    · simp only
      have := countSome_set_none m.data k v hidx
      omega
    · intro i hi
      simp only at hi ⊢
      rcases List.mem_cons.mp hi with hik | hi
      · subst hik
        rw [List.getElem?_set_eq_of_lt _ hlt]
      · have hne : i ≠ k := by
          intro h
          have := hempty i hi
          rw [h, hidx] at this
          simp at this
        rw [List.getElem?_set_ne (fun h => hne h.symm)]
        exact hempty i hi
    · simp only
      refine List.nodup_cons.mpr ⟨?_, hnodup⟩
      intro hk
      have := hempty k hk
      rw [hidx] at this
      simp at this

/-- Every reachable arena satisfies the invariant. -/
theorem inv_of_reachable {T : Type} {m : UsizeMap T} (h : Reachable m) : Inv m := by
  induction h with
  | new => exact inv_new
  | insert m x k m' _ hins ih => exact inv_insert ih hins
  | remove m k _ ih => exact inv_remove k ih

end UsizeMap

/-! ## Claim theorems. -/

/-- C9.  `Data` cloning is a shallow copy: every scalar variant is copied by
value and every handle variant copies only the index, so the clone is equal
to the original and a cloned handle denotes the same container.  The clone
function takes no heap state (`Data → Data`), so cloning a `Data` value
changes no reference count in any heap. -/
theorem claim9_clone_shallow : ∀ d : Data, d.clone = d := by
  intro d
  cases d <;> rfl

/-- C3.  Dropping a live handle (`DataObject`, `DataArray` or `DataBytes`
going out of scope) pushes its index onto that store's pending-decrement
queue (at the back) and leaves all three heaps — hence every reference
count — unchanged, as well as the other two queues; the decrement itself
happens only when a later `gc()` drains the queue. -/
theorem claim3_drop_queues_only (st : NState) (r : Nat) :
    ((DataObject.dropHandle st r).oheap = st.oheap ∧
      (DataObject.dropHandle st r).aheap = st.aheap ∧
      (DataObject.dropHandle st r).bheap = st.bheap ∧
      (DataObject.dropHandle st r).odrop = st.odrop ++ [r] ∧
      (DataObject.dropHandle st r).adrop = st.adrop ∧
      (DataObject.dropHandle st r).bdrop = st.bdrop) ∧
    ((DataArray.dropHandle st r).oheap = st.oheap ∧
      (DataArray.dropHandle st r).aheap = st.aheap ∧
      (DataArray.dropHandle st r).bheap = st.bheap ∧
      (DataArray.dropHandle st r).odrop = st.odrop ∧
      (DataArray.dropHandle st r).adrop = st.adrop ++ [r] ∧
      (DataArray.dropHandle st r).bdrop = st.bdrop) ∧
    ((DataBytes.dropHandle st r).oheap = st.oheap ∧
      (DataBytes.dropHandle st r).aheap = st.aheap ∧
      (DataBytes.dropHandle st r).bheap = st.bheap ∧
      (DataBytes.dropHandle st r).odrop = st.odrop ∧
      (DataBytes.dropHandle st r).adrop = st.adrop ∧
      (DataBytes.dropHandle st r).bdrop = st.bdrop ++ [r]) :=
  ⟨⟨rfl, rfl, rfl, rfl, rfl, rfl⟩,
   ⟨rfl, rfl, rfl, rfl, rfl, rfl⟩,
   ⟨rfl, rfl, rfl, rfl, rfl, rfl⟩⟩

/-- C5.  `Heap::decr` on a live index removes the entry when its count is 1
(the index stops being live, other entries untouched), decrements the count
by 1 leaving the entry live when the count exceeds 1, and panics (`none`)
on a non-live index rather than silently doing nothing. -/
theorem claim5_decr_spec {T : Type} (h : Heap T) (i : Nat) (c : Nat) :
    (h.contains_key i = true → h.count? i = some c →
      (c = 1 → ∃ h', h.decr i = some h' ∧ h'.contains_key i = false ∧
        ∀ j, j ≠ i → h'.data.get? j = h.data.get? j) ∧
      (1 < c → ∃ h', h.decr i = some h' ∧ h'.contains_key i = true ∧
        h'.count? i = some (c - 1))) ∧
    (h.contains_key i = false → h.decr i = none) := by
  constructor
  · intro hcont hcount
    have hsome : (h.get? i).isSome := by
      rw [← Heap.contains_key_eq_isSome_get?]
      exact hcont
    obtain ⟨d, hd⟩ := Option.isSome_iff_exists.mp hsome
    have hblob : h.data.get? i = some ⟨d, c⟩ := Heap.blob_of_get?_count? hd hcount
    constructor
    · intro hc1
      obtain ⟨heq, hgone, hframe⟩ := Heap.decr_remove h i ⟨d, c⟩ hblob hc1
      exact ⟨h.removeEntry i, heq, hgone, hframe⟩
    · intro hc
      obtain ⟨h', heq, hget, _, hcontall⟩ := Heap.decr_decrement h i ⟨d, c⟩ hblob hc
      refine ⟨h', heq, ?_, ?_⟩
      · rw [hcontall i]
        exact hcont
      · exact Heap.count?_of_blob hget
  · exact Heap.decr_not_contains h i

set_option maxHeartbeats 1600000 in
/-- C10.  `Data::equals` on two handle-valued `Data` is identity of the
(variant, index) pair: it is `true` exactly when the two values are equal
as tagged indices, and it never dereferences the heaps (its type is
`Data → Data → Bool`), so distinct containers with identical contents
compare unequal.  Consequently `DataArray::index_of` — which searches with
`Data::equals`, as do `push_unique` and `remove_data` — finds a
handle-valued needle exactly when that same handle is an element of the
array's vector. -/
theorem claim10_identity_equality :
    (∀ a b : Data, a.isHandle = true → b.isHandle = true →
      (Data.equals a b = true ↔ a = b)) ∧
    (∀ (st : NState) (self_ref : Nat) (vec : List Data) (b : Data),
      st.aheap.get? self_ref = some vec → b.isHandle = true →
      (DataArray.index_of st self_ref b ≠ -1 ↔ b ∈ vec)) := by
  have hpart1 : ∀ a b : Data, a.isHandle = true → b.isHandle = true →
      (Data.equals a b = true ↔ a = b) := by
    intro a b ha hb
    cases a <;> cases b <;>
      simp_all [Data.equals, Data.isHandle, Data.is_object, Data.is_array, Data.is_bytes]
  have hkey : ∀ x y : Data, y.isHandle = true → Data.equals x y = true → x = y := by
    intro x y hy hxy
    cases x <;> cases y <;>
      simp_all [Data.equals, Data.isHandle, Data.is_object, Data.is_array, Data.is_bytes]
  refine ⟨hpart1, ?_⟩
  intro st self_ref vec b hvec hb
  have hcont : st.aheap.contains_key self_ref = true := Heap.contains_of_get? hvec
  have hidxeq : DataArray.index_of st self_ref b =
      (match vec.findIdx? (fun d => Data.equals d b) with
       | some i => (i : Int)
       | none => -1) := by
    unfold DataArray.index_of
    rw [hcont]
    simp [hvec]
  rw [hidxeq]
  cases hf : vec.findIdx? (fun d => Data.equals d b) with
  | none =>
    have hall := List.findIdx?_eq_none_iff.mp hf
    simp only [ne_eq, not_true_eq_false, false_iff]
    intro hmem
    have hbb : Data.equals b b = true := by
      cases b <;>
        simp_all [Data.equals, Data.isHandle, Data.is_object, Data.is_array, Data.is_bytes]
    have hfalse := hall b hmem
    simp only [hbb] at hfalse
    exact Bool.noConfusion hfalse
  | some i =>
    show (i : Int) ≠ -1 ↔ b ∈ vec
    constructor
    · intro _
      obtain ⟨hlt, hp, -⟩ := List.findIdx?_eq_some_iff_getElem.mp hf
      have hxb : vec[i] = b := hkey _ b hb hp
      exact hxb ▸ List.getElem_mem hlt
    · intro _
      omega

/-- C1 counterexample.  In the concrete two-object cycle scenario (A = index
0 and B = index 1 each hold a handle to the other, both host-held live
handles are dropped, `ndata::gc()` runs), both indices are still live in
the object heap afterwards — contradicting the claim that `contains_key`
is false for both. -/
theorem claim1_counterexample :
    (cycleScenario.map fun st =>
      (st.oheap.contains_key 0, st.oheap.contains_key 1)) = some (true, true) := by
  decide

/-- C1 amended.  After building the two-object reference cycle, dropping
both host-held live handles, and calling `ndata::gc()`, neither A nor B is
freed: both indices remain in the object heap, each with reference count 1
(the count held by the other object's map entry), and every pending-drop
queue has been drained.  The reference-counting `delete` does not reclaim
cycles. -/
theorem claim1_cycle_not_collected :
    (cycleScenario.map fun st =>
      (st.oheap.contains_key 0, st.oheap.contains_key 1)) = some (true, true) ∧
    (cycleScenario.map fun st =>
      (st.oheap.count? 0, st.oheap.count? 1)) = some (some 1, some 1) ∧
    (cycleScenario.map fun st =>
      (st.odrop, st.adrop, st.bdrop)) = some ([], [], []) :=
  ⟨by decide, by decide, by decide⟩

/-- C6 counterexample.  The duplicate-rollback path of
`DataArray::push_unique` with an object-handle argument (the argument's
count was incremented, the guarded re-check finds a duplicate, and the
rollback `oheap().lock().decr(..)` runs while `aheap_guard` is still held)
acquires the Object-heap lock while holding the Array-heap lock — the
Array store comes later than the Object store in the fixed order, so the
claimed discipline is violated. -/
theorem claim6_counterexample :
    respectsOrder (DataArray.pushUniqueObjLocks false false true) = false := by
  decide

/-- C6 amended.  The fixed Object → Array → Bytes acquisition order holds on
the main paths — `DataObject::set_property` for every stored kind, the
happy paths of `DataArray::push_property` / `set_property` /
`push_unique`, and all three `gc` functions — but it is violated on the
rollback paths of the Array store that touch the Object heap while the
Array-heap lock is held: `DataArray::push_property` and
`DataArray::set_property` with an object-handle value whose target array
is missing (or, for `set_property`, whose index is out of bounds), and
`DataArray::push_unique` with an object-handle argument on its
disappeared-target and duplicate rollback paths.  (The corresponding
bytes-handle rollbacks acquire the Bytes lock under the Array lock, which
respects the order.) -/
theorem claim6_lock_order :
    (respectsOrder (DataObject.setPropertyLocks (some .obj)) = true ∧
      respectsOrder (DataObject.setPropertyLocks (some .arr)) = true ∧
      respectsOrder (DataObject.setPropertyLocks (some .bytes)) = true ∧
      respectsOrder (DataObject.setPropertyLocks none) = true) ∧
    (respectsOrder (DataArray.pushPropertyLocks (some .obj) false) = true ∧
      respectsOrder (DataArray.pushPropertyLocks (some .arr) false) = true ∧
      respectsOrder (DataArray.pushPropertyLocks (some .bytes) false) = true ∧
      respectsOrder (DataArray.pushPropertyLocks none false) = true ∧
      respectsOrder (DataArray.pushPropertyLocks (some .obj) true) = false ∧
      respectsOrder (DataArray.pushPropertyLocks (some .bytes) true) = true) ∧
    (respectsOrder (DataArray.setPropertyLocks (some .obj) false false) = true ∧
      respectsOrder (DataArray.setPropertyLocks (some .arr) false false) = true ∧
      respectsOrder (DataArray.setPropertyLocks (some .bytes) false false) = true ∧
      respectsOrder (DataArray.setPropertyLocks none false false) = true ∧
      respectsOrder (DataArray.setPropertyLocks (some .obj) true false) = false ∧
      respectsOrder (DataArray.setPropertyLocks (some .obj) false true) = false ∧
      respectsOrder (DataArray.setPropertyLocks (some .bytes) true false) = true) ∧
    (respectsOrder (DataArray.pushUniqueObjLocks true false false) = true ∧
      respectsOrder (DataArray.pushUniqueObjLocks false false false) = true ∧
      respectsOrder (DataArray.pushUniqueObjLocks false true false) = false ∧
      respectsOrder (DataArray.pushUniqueObjLocks false false true) = false ∧
      respectsOrder (DataArray.pushUniqueBytesLocks true false false) = true ∧
      respectsOrder (DataArray.pushUniqueBytesLocks false false false) = true ∧
      respectsOrder (DataArray.pushUniqueBytesLocks false true false) = true ∧
      respectsOrder (DataArray.pushUniqueBytesLocks false false true) = true) ∧
    (respectsOrder DataObject.gcLocks = true ∧
      respectsOrder DataArray.gcLocks = true ∧
      respectsOrder DataBytes.gcLocks = true) := by
  decide

/-- C8 counterexample.  A live stream whose read side has been closed while
its write side remains open (`DataBytes::new()` then `close_read()`): the
stream reports `write_open = true`, yet `write(&[7])` returns `false` and
appends nothing, because `DataBytes::write` requires the stream to be both
write-open *and* read-open — contradicting "write appends and succeeds
while the stream is write-open". -/
theorem claim8_counterexample :
    (closedReadScenario.map fun p =>
      ((p.1.bheap.get? p.2).map DataStream.write_open,
       (DataBytes.write p.1 p.2 [7]).2,
       ((DataBytes.write p.1 p.2 [7]).1.bheap.get? p.2).map DataStream.data)) =
      some (some true, false, some []) := by
  decide

/-- C7.  For every arena state reachable by a sequence of `insert` and
`remove` operations from `UsizeMap::new`: `len()` equals the number of
slots currently holding a value (freed slots are never counted); when free
indices are available, `insert` succeeds reusing one of them without
growing the storage; and only when the free list is empty does `insert`
append a new slot at the end of the storage. -/
theorem claim7_arena_invariants {T : Type} (m : UsizeMap T) (x : T)
    (hr : UsizeMap.Reachable m) :
    m.len = UsizeMap.countSome m.data ∧
    (m.empty ≠ [] → ∃ k m', m.insert x = some (k, m') ∧ k ∈ m.empty ∧
      m'.data.length = m.data.length ∧ m'.len = m.len + 1) ∧
    (m.empty = [] →
      m.insert x = some (m.data.length, ⟨m.data ++ [some x], [], m.count + 1⟩)) := by
  obtain ⟨hcount, hempty, hnodup⟩ := UsizeMap.inv_of_reachable hr
  refine ⟨hcount, ?_, ?_⟩
  · intro hne
    cases he : m.empty with
    | nil => exact absurd he hne
    | cons index rest =>
      have hidx : m.data[index]? = some none :=
        hempty index (he ▸ List.mem_cons_self index rest)
      have hlt : index < m.data.length := (List.getElem?_eq_some.mp hidx).1
      have hnone : (m.data.getD index none).isNone = true := by
        rw [List.getD_eq_getElem?_getD, hidx]
        rfl
      refine ⟨index, ⟨m.data.set index (some x), rest, m.count + 1⟩, ?_, ?_, by simp, rfl⟩
      · unfold UsizeMap.insert
        rw [he]
        dsimp only
        rw [if_pos hlt, if_pos hnone]
      · exact he ▸ List.mem_cons_self index rest
  · intro he
    unfold UsizeMap.insert
    rw [he]

/-- Witness for C7: the concrete reachable arena obtained by inserting 10
and 20 into a fresh arena and removing index 0; its free list is `[0]`,
its `len` is 1, and inserting 30 reuses index 0. -/
theorem claim7_witness :
    (⟨[none, some 20], [0], 1⟩ : UsizeMap Nat).len =
        UsizeMap.countSome (⟨[none, some 20], [0], 1⟩ : UsizeMap Nat).data ∧
      ((⟨[none, some 20], [0], 1⟩ : UsizeMap Nat).empty ≠ [] →
        ∃ k m', (⟨[none, some 20], [0], 1⟩ : UsizeMap Nat).insert 30 = some (k, m') ∧
          k ∈ (⟨[none, some 20], [0], 1⟩ : UsizeMap Nat).empty ∧
          m'.data.length = (⟨[none, some 20], [0], 1⟩ : UsizeMap Nat).data.length ∧
          m'.len = (⟨[none, some 20], [0], 1⟩ : UsizeMap Nat).len + 1) ∧
      ((⟨[none, some 20], [0], 1⟩ : UsizeMap Nat).empty = [] →
        (⟨[none, some 20], [0], 1⟩ : UsizeMap Nat).insert 30 =
          some ((⟨[none, some 20], [0], 1⟩ : UsizeMap Nat).data.length,
            ⟨(⟨[none, some 20], [0], 1⟩ : UsizeMap Nat).data ++ [some 30], [],
              (⟨[none, some 20], [0], 1⟩ : UsizeMap Nat).count + 1⟩)) :=
  claim7_arena_invariants (⟨[none, some 20], [0], 1⟩ : UsizeMap Nat) 30
    (UsizeMap.Reachable.remove (⟨[some 10, some 20], [], 2⟩ : UsizeMap Nat) 0
      (UsizeMap.Reachable.insert (⟨[some 10], [], 1⟩ : UsizeMap Nat) 20 1
        (⟨[some 10, some 20], [], 2⟩ : UsizeMap Nat)
        (UsizeMap.Reachable.insert UsizeMap.new 10 0
          (⟨[some 10], [], 1⟩ : UsizeMap Nat) UsizeMap.Reachable.new rfl)
        rfl))

/-- C2.  The recursive `delete` of both container stores follows the
two-phase order.  For an index `r` whose count is about to be decremented:
if the current count is 1, the result is obtained by first snapshotting the
object- and array-handle children from the *pre-decrement* payload (Bytes
handles are not walked), then removing the entry from the arena (the
decrement), then recursively invoking the appropriate store's delete for
each snapshotted child index in order; if the current count is greater
than 1, only the count is decremented — the payload, every other entry,
liveness everywhere, and the other heap are untouched, and no recursion
happens. -/
theorem claim2_delete_two_phase (fuel : Nat) :
    (∀ (oh : Heap ObjMap) (ah : Heap (List Data)) (r : Nat) (m : ObjMap) (c : Nat),
      oh.get? r = some m → oh.count? r = some c →
      (c = 1 →
        objDelete (fuel + 1) oh r ah =
          (let p := (objChildrenOfMap m).foldl
              (fun (p : Heap ObjMap × Heap (List Data)) i => objDelete fuel p.1 i p.2)
              (oh.removeEntry r, ah)
           let q := (arrChildrenOfMap m).foldl
              (fun (q : Heap (List Data) × Heap ObjMap) i => arrDelete fuel q.1 i q.2)
              (p.2, p.1)
           (q.2, q.1))) ∧
      (1 < c →
        ∃ oh', objDelete (fuel + 1) oh r ah = (oh', ah) ∧
          oh'.count? r = some (c - 1) ∧ oh'.get? r = some m ∧
          (∀ j, j ≠ r → oh'.data.get? j = oh.data.get? j) ∧
          (∀ j, oh'.contains_key j = oh.contains_key j))) ∧
    (∀ (ah : Heap (List Data)) (oh : Heap ObjMap) (r : Nat) (v : List Data) (c : Nat),
      ah.get? r = some v → ah.count? r = some c →
      (c = 1 →
        arrDelete (fuel + 1) ah r oh =
          (let p := (objChildrenOfVec v).foldl
              (fun (p : Heap ObjMap × Heap (List Data)) i => objDelete fuel p.1 i p.2)
              (oh, ah.removeEntry r)
           let q := (arrChildrenOfVec v).foldl
              (fun (q : Heap (List Data) × Heap ObjMap) i => arrDelete fuel q.1 i q.2)
              (p.2, p.1)
           (q.1, q.2))) ∧
      (1 < c →
        ∃ ah', arrDelete (fuel + 1) ah r oh = (ah', oh) ∧
          ah'.count? r = some (c - 1) ∧ ah'.get? r = some v ∧
          (∀ j, j ≠ r → ah'.data.get? j = ah.data.get? j) ∧
          (∀ j, ah'.contains_key j = ah.contains_key j))) := by
  constructor
  · intro oh ah r m c hm hc
    have hblob : oh.data.get? r = some ⟨m, c⟩ := Heap.blob_of_get?_count? hm hc
    have hcont : oh.contains_key r = true := Heap.contains_of_get? hm
    constructor
    · intro hc1
      subst hc1
      have hdecr := (Heap.decr_remove oh r ⟨m, 1⟩ hblob rfl).1
      simp only [objDelete, hcont, hm, hc, hdecr]
      norm_num
    · intro hlt
      obtain ⟨oh', heq, hget, hframe, hcontall⟩ :=
        Heap.decr_decrement oh r ⟨m, c⟩ hblob hlt
      refine ⟨oh', ?_, Heap.count?_of_blob hget, Heap.get?_data_of_blob hget,
        hframe, hcontall⟩
      have hne0 : ¬ c = 0 := by omega
      have hne1 : ¬ c = 1 := by omega
      simp only [objDelete, hcont, hm, hc, heq]
      simp [hne0, hne1, hlt]
  · intro ah oh r v c hv hc
    have hblob : ah.data.get? r = some ⟨v, c⟩ := Heap.blob_of_get?_count? hv hc
    have hcont : ah.contains_key r = true := Heap.contains_of_get? hv
    constructor
    · intro hc1
      subst hc1
      have hdecr := (Heap.decr_remove ah r ⟨v, 1⟩ hblob rfl).1
      simp only [arrDelete, hcont, hv, hc, hdecr]
      norm_num
    · intro hlt
      obtain ⟨ah', heq, hget, hframe, hcontall⟩ :=
        Heap.decr_decrement ah r ⟨v, c⟩ hblob hlt
      refine ⟨ah', ?_, Heap.count?_of_blob hget, Heap.get?_data_of_blob hget,
        hframe, hcontall⟩
      have hne0 : ¬ c = 0 := by omega
      have hne1 : ¬ c = 1 := by omega
      simp only [arrDelete, hcont, hv, hc, heq]
      simp [hne0, hne1, hlt]

/-- Witness for C2: a concrete object entry at index 0 with count 2 holding
one object handle; `objDelete` only decrements the count to 1 and recurses
into nothing. -/
theorem claim2_witness :
    ∃ oh', objDelete 6 (⟨⟨[some ⟨[("x", Data.DObject 7)], 2⟩], [], 1⟩⟩ : Heap ObjMap)
        0 (⟨⟨[], [], 0⟩⟩ : Heap (List Data)) = (oh', ⟨⟨[], [], 0⟩⟩) ∧
      oh'.count? 0 = some 1 ∧
      oh'.get? 0 = some [("x", Data.DObject 7)] ∧
      (∀ j, j ≠ 0 →
        oh'.data.get? j =
          (⟨⟨[some ⟨[("x", Data.DObject 7)], 2⟩], [], 1⟩⟩ : Heap ObjMap).data.get? j) ∧
      (∀ j, oh'.contains_key j =
        (⟨⟨[some ⟨[("x", Data.DObject 7)], 2⟩], [], 1⟩⟩ : Heap ObjMap).contains_key j) :=
  ((claim2_delete_two_phase 5).1
      (⟨⟨[some ⟨[("x", Data.DObject 7)], 2⟩], [], 1⟩⟩ : Heap ObjMap)
      (⟨⟨[], [], 0⟩⟩ : Heap (List Data)) 0 [("x", Data.DObject 7)] 2
      rfl rfl).2 (by omega)

/-- Effect of `DataObject::set_property` on a live object when storing a
handle-bearing value with a live target: the target count rises by exactly
one, the binding is inserted, all other counts and liveness are untouched,
and a replaced handle-bearing old value is appended to its store's
pending-drop queue. -/
theorem objectSetPropertySpec (st : NState) (self_ref j : Nat) (key : String)
    (d : Data) (s : Store) (cj : Nat) (m : ObjMap)
    (hs : d.store? = some s) (ht : d.targetRef? = some j)
    (hl : storeContains st s j = true) (hcj : storeCount st s j = some cj)
    (hco : st.oheap.contains_key self_ref = true)
    (hm : st.oheap.get? self_ref = some m) :
    ∃ st', DataObject.set_property st self_ref key d = some st' ∧
      storeCount st' s j = some (cj + 1) ∧
      (∀ s' i, ¬(s' = s ∧ i = j) → storeCount st' s' i = storeCount st s' i) ∧
      (∀ s' i, storeContains st' s' i = storeContains st s' i) ∧
      st'.oheap.get? self_ref = some (mapInsert m key d).2 ∧
      (∀ s', storeQueue st' s' = storeQueue st s' ++ queuedFrom (mapInsert m key d).1 s') := by
  cases d with
  | DObject j0 =>
    simp only [Data.store?, Option.some_inj] at hs
    simp only [Data.targetRef?, Option.some_inj] at ht
    subst hs
    subst ht
    simp only [storeContains] at hl
    simp only [storeCount] at hcj
    obtain ⟨d0, hd0⟩ := Heap.exists_get?_of_contains hl
    have hblob : st.oheap.data.get? j0 = some ⟨d0, cj⟩ := Heap.blob_of_get?_count? hd0 hcj
    obtain ⟨oh1, hincr, hget1, hframe1, hcont1, _⟩ := Heap.incr_spec st.oheap j0 ⟨d0, cj⟩ hblob
    have hcoself : oh1.contains_key self_ref = true := by rw [hcont1]; exact hco
    have hmself : oh1.get? self_ref = some m := by
      by_cases hsj : self_ref = j0
      · subst hsj
        have hdm : d0 = m := by
          rw [hm] at hd0
          exact (Option.some_inj.mp hd0).symm
        subst hdm
        exact Heap.get?_data_of_blob hget1
      · rw [Heap.get?_congr (hframe1 self_ref hsj)]
        exact hm
    obtain ⟨b1, hb1, hb1d⟩ := Heap.exists_blob_of_get? hmself
    obtain ⟨oh2, hset, hget2, hframe2, hcont2, hcountall2, _⟩ :=
      Heap.setData_spec oh1 self_ref (mapInsert m key (Data.DObject j0)).2 b1 hb1
    refine ⟨queueOld { st with oheap := oh2 } (mapInsert m key (Data.DObject j0)).1,
      ?_, ?_, ?_, ?_, ?_, ?_⟩
    · simp [DataObject.set_property, hincr, hcoself, hmself, hset]
    · simp only [storeCount]
      rw [queueOld_oheap, hcountall2 j0, Heap.count?_of_blob hget1]
    · intro s' i hni
      cases s' with
      | obj =>
        have hij : i ≠ j0 := by
          intro h
          exact hni ⟨rfl, h⟩
        simp only [storeCount]
        rw [queueOld_oheap, hcountall2 i]
        exact Heap.count?_congr (hframe1 i hij)
      | arr =>
        simp only [storeCount]
        rw [queueOld_aheap]
      | bytes =>
        simp only [storeCount]
        rw [queueOld_bheap]
    · intro s' i
      cases s' with
      | obj =>
        simp only [storeContains]
        rw [queueOld_oheap, hcont2 i, hcont1 i]
      | arr =>
        simp only [storeContains]
        rw [queueOld_aheap]
      | bytes =>
        simp only [storeContains]
        rw [queueOld_bheap]
    · rw [queueOld_oheap]
      exact Heap.get?_data_of_blob hget2
    · intro s'
      rw [storeQueue_queueOld]
      cases s' <;> rfl
  | DArray j0 =>
    simp only [Data.store?, Option.some_inj] at hs
    simp only [Data.targetRef?, Option.some_inj] at ht
    subst hs
    subst ht
    simp only [storeContains] at hl
    simp only [storeCount] at hcj
    obtain ⟨d0, hd0⟩ := Heap.exists_get?_of_contains hl
    have hblob : st.aheap.data.get? j0 = some ⟨d0, cj⟩ := Heap.blob_of_get?_count? hd0 hcj
    obtain ⟨ah1, hincr, hget1, hframe1, hcont1, _⟩ := Heap.incr_spec st.aheap j0 ⟨d0, cj⟩ hblob
    obtain ⟨b1, hb1, hb1d⟩ := Heap.exists_blob_of_get? hm
    obtain ⟨oh2, hset, hget2, hframe2, hcont2, hcountall2, _⟩ :=
      Heap.setData_spec st.oheap self_ref (mapInsert m key (Data.DArray j0)).2 b1 hb1
    refine ⟨queueOld { st with oheap := oh2, aheap := ah1 }
        (mapInsert m key (Data.DArray j0)).1, ?_, ?_, ?_, ?_, ?_, ?_⟩
    · simp [DataArray.set_property, DataObject.set_property, hincr, hco, hm, hset]
    · simp only [storeCount]
      rw [queueOld_aheap]
      exact Heap.count?_of_blob hget1
    · intro s' i hni
      cases s' with
      | obj =>
        simp only [storeCount]
        rw [queueOld_oheap, hcountall2 i]
      | arr =>
        have hij : i ≠ j0 := by
          intro h
          exact hni ⟨rfl, h⟩
        simp only [storeCount]
        rw [queueOld_aheap]
        exact Heap.count?_congr (hframe1 i hij)
      | bytes =>
        simp only [storeCount]
        rw [queueOld_bheap]
    · intro s' i
      cases s' with
      | obj =>
        simp only [storeContains]
        rw [queueOld_oheap, hcont2 i]
      | arr =>
        simp only [storeContains]
        rw [queueOld_aheap, hcont1 i]
      | bytes =>
        simp only [storeContains]
        rw [queueOld_bheap]
    · rw [queueOld_oheap]
      exact Heap.get?_data_of_blob hget2
    · intro s'
      rw [storeQueue_queueOld]
      cases s' <;> rfl
  | DBytes j0 =>
    simp only [Data.store?, Option.some_inj] at hs
    simp only [Data.targetRef?, Option.some_inj] at ht
    subst hs
    subst ht
    simp only [storeContains] at hl
    simp only [storeCount] at hcj
    obtain ⟨d0, hd0⟩ := Heap.exists_get?_of_contains hl
    have hblob : st.bheap.data.get? j0 = some ⟨d0, cj⟩ := Heap.blob_of_get?_count? hd0 hcj
    obtain ⟨bh1, hincr, hget1, hframe1, hcont1, _⟩ := Heap.incr_spec st.bheap j0 ⟨d0, cj⟩ hblob
    obtain ⟨b1, hb1, hb1d⟩ := Heap.exists_blob_of_get? hm
    obtain ⟨oh2, hset, hget2, hframe2, hcont2, hcountall2, _⟩ :=
      Heap.setData_spec st.oheap self_ref (mapInsert m key (Data.DBytes j0)).2 b1 hb1
    refine ⟨queueOld { st with oheap := oh2, bheap := bh1 }
        (mapInsert m key (Data.DBytes j0)).1, ?_, ?_, ?_, ?_, ?_, ?_⟩
    · simp [DataObject.set_property, hincr, hco, hm, hset]
    · simp only [storeCount]
      rw [queueOld_bheap]
      exact Heap.count?_of_blob hget1
    · intro s' i hni
      cases s' with
      | obj =>
        simp only [storeCount]
        rw [queueOld_oheap, hcountall2 i]
      | arr =>
        simp only [storeCount]
        rw [queueOld_aheap]
      | bytes =>
        have hij : i ≠ j0 := by
          intro h
          exact hni ⟨rfl, h⟩
        simp only [storeCount]
        rw [queueOld_bheap]
        exact Heap.count?_congr (hframe1 i hij)
    · intro s' i
      cases s' with
      | obj =>
        simp only [storeContains]
        rw [queueOld_oheap, hcont2 i]
      | arr =>
        simp only [storeContains]
        rw [queueOld_aheap]
      | bytes =>
        simp only [storeContains]
        rw [queueOld_bheap, hcont1 i]
    · rw [queueOld_oheap]
      exact Heap.get?_data_of_blob hget2
    · intro s'
      rw [storeQueue_queueOld]
      cases s' <;> rfl
  | DString x => simp [Data.store?] at hs
  | DBoolean x => simp [Data.store?] at hs
  | DFloat x => simp [Data.store?] at hs
  | DInt x => simp [Data.store?] at hs
  | DNull => simp [Data.store?] at hs

/-- Effect of `DataArray::push_property` on a live array when pushing a
handle-bearing value with a live target: the target count rises by exactly
one before the value is appended, and nothing else (counts, liveness,
queues) changes. -/
theorem DataArray.push_property_spec (st : NState) (self_ref j : Nat)
    (d : Data) (s : Store) (cj : Nat) (vec : List Data)
    (hs : d.store? = some s) (ht : d.targetRef? = some j)
    (hl : storeContains st s j = true) (hcj : storeCount st s j = some cj)
    (hca : st.aheap.contains_key self_ref = true)
    (hv : st.aheap.get? self_ref = some vec) :
    ∃ st', DataArray.push_property st self_ref d = some st' ∧
      storeCount st' s j = some (cj + 1) ∧
      (∀ s' i, ¬(s' = s ∧ i = j) → storeCount st' s' i = storeCount st s' i) ∧
      (∀ s' i, storeContains st' s' i = storeContains st s' i) ∧
      st'.aheap.get? self_ref = some (vec ++ [d]) ∧
      (∀ s', storeQueue st' s' = storeQueue st s') := by
  cases d with
  | DObject j0 =>
    simp only [Data.store?, Option.some_inj] at hs
    simp only [Data.targetRef?, Option.some_inj] at ht
    subst hs
    subst ht
    simp only [storeContains] at hl
    simp only [storeCount] at hcj
    obtain ⟨d0, hd0⟩ := Heap.exists_get?_of_contains hl
    have hblob : st.oheap.data.get? j0 = some ⟨d0, cj⟩ := Heap.blob_of_get?_count? hd0 hcj
    obtain ⟨oh1, hincr, hget1, hframe1, hcont1, _⟩ := Heap.incr_spec st.oheap j0 ⟨d0, cj⟩ hblob
    obtain ⟨b1, hb1, hb1d⟩ := Heap.exists_blob_of_get? hv
    obtain ⟨ah2, hset, hget2, hframe2, hcont2, hcountall2, _⟩ :=
      Heap.setData_spec st.aheap self_ref (vec ++ [Data.DObject j0]) b1 hb1
    refine ⟨{ st with oheap := oh1, aheap := ah2 }, ?_, ?_, ?_, ?_, ?_, ?_⟩
    · simp [DataArray.push_property, incrByKind, hincr, hca, hv, hset]
    · simp only [storeCount]
      exact Heap.count?_of_blob hget1
    · intro s' i hni
      cases s' with
      | obj =>
        have hij : i ≠ j0 := by
          intro h
          exact hni ⟨rfl, h⟩
        simp only [storeCount]
        exact Heap.count?_congr (hframe1 i hij)
      | arr =>
        simp only [storeCount]
        exact hcountall2 i
      | bytes => rfl
    · intro s' i
      cases s' with
      | obj =>
        simp only [storeContains]
        exact hcont1 i
      | arr =>
        simp only [storeContains]
        exact hcont2 i
      | bytes => rfl
    · exact Heap.get?_data_of_blob hget2
    · intro s'
      cases s' <;> rfl
  | DArray j0 =>
    simp only [Data.store?, Option.some_inj] at hs
    simp only [Data.targetRef?, Option.some_inj] at ht
    subst hs
    subst ht
    simp only [storeContains] at hl
    simp only [storeCount] at hcj
    obtain ⟨d0, hd0⟩ := Heap.exists_get?_of_contains hl
    have hblob : st.aheap.data.get? j0 = some ⟨d0, cj⟩ := Heap.blob_of_get?_count? hd0 hcj
    obtain ⟨ah1, hincr, hget1, hframe1, hcont1, _⟩ := Heap.incr_spec st.aheap j0 ⟨d0, cj⟩ hblob
    have hcaself : ah1.contains_key self_ref = true := by rw [hcont1]; exact hca
    have hvself : ah1.get? self_ref = some vec := by
      by_cases hsj : self_ref = j0
      · subst hsj
        have hdm : d0 = vec := by
          rw [hv] at hd0
          exact (Option.some_inj.mp hd0).symm
        subst hdm
        exact Heap.get?_data_of_blob hget1
      · rw [Heap.get?_congr (hframe1 self_ref hsj)]
        exact hv
    obtain ⟨b1, hb1, hb1d⟩ := Heap.exists_blob_of_get? hvself
    obtain ⟨ah2, hset, hget2, hframe2, hcont2, hcountall2, _⟩ :=
      Heap.setData_spec ah1 self_ref (vec ++ [Data.DArray j0]) b1 hb1
    refine ⟨{ st with aheap := ah2 }, ?_, ?_, ?_, ?_, ?_, ?_⟩
    · simp [DataArray.push_property, incrByKind, hincr, hcaself, hvself, hset]
    · simp only [storeCount]
      rw [hcountall2 j0]
      exact Heap.count?_of_blob hget1
    · intro s' i hni
      cases s' with
      | obj => rfl
      | arr =>
        have hij : i ≠ j0 := by
          intro h
          exact hni ⟨rfl, h⟩
        simp only [storeCount]
        rw [hcountall2 i]
        exact Heap.count?_congr (hframe1 i hij)
      | bytes => rfl
    · intro s' i
      cases s' with
      | obj => rfl
      | arr =>
        simp only [storeContains]
        rw [hcont2 i, hcont1 i]
      | bytes => rfl
    · exact Heap.get?_data_of_blob hget2
    · intro s'
      cases s' <;> rfl
  | DBytes j0 =>
    simp only [Data.store?, Option.some_inj] at hs
    simp only [Data.targetRef?, Option.some_inj] at ht
    subst hs
    subst ht
    simp only [storeContains] at hl
    simp only [storeCount] at hcj
    obtain ⟨d0, hd0⟩ := Heap.exists_get?_of_contains hl
    have hblob : st.bheap.data.get? j0 = some ⟨d0, cj⟩ := Heap.blob_of_get?_count? hd0 hcj
    obtain ⟨bh1, hincr, hget1, hframe1, hcont1, _⟩ := Heap.incr_spec st.bheap j0 ⟨d0, cj⟩ hblob
    obtain ⟨b1, hb1, hb1d⟩ := Heap.exists_blob_of_get? hv
    obtain ⟨ah2, hset, hget2, hframe2, hcont2, hcountall2, _⟩ :=
      Heap.setData_spec st.aheap self_ref (vec ++ [Data.DBytes j0]) b1 hb1
    refine ⟨{ st with bheap := bh1, aheap := ah2 }, ?_, ?_, ?_, ?_, ?_, ?_⟩
    · simp [DataArray.push_property, incrByKind, hincr, hca, hv, hset]
    · simp only [storeCount]
      exact Heap.count?_of_blob hget1
    · intro s' i hni
      cases s' with
      | obj => rfl
      | arr =>
        simp only [storeCount]
        exact hcountall2 i
      | bytes =>
        have hij : i ≠ j0 := by
          intro h
          exact hni ⟨rfl, h⟩
        simp only [storeCount]
        exact Heap.count?_congr (hframe1 i hij)
    · intro s' i
      cases s' with
      | obj => rfl
      | arr =>
        simp only [storeContains]
        exact hcont2 i
      | bytes =>
        simp only [storeContains]
        exact hcont1 i
    · exact Heap.get?_data_of_blob hget2
    · intro s'
      cases s' <;> rfl
  | DString x => simp [Data.store?] at hs
  | DBoolean x => simp [Data.store?] at hs
  | DFloat x => simp [Data.store?] at hs
  | DInt x => simp [Data.store?] at hs
  | DNull => simp [Data.store?] at hs

/-- Effect of `DataArray::set_property` on a live array at an in-bounds
index when storing a handle-bearing value with a live target: the target
count rises by exactly one before the element is replaced, the replaced old
value (if handle-bearing) is appended to its store's pending-drop queue,
and nothing else changes. -/
theorem arraySetPropertySpec (st : NState) (self_ref j id : Nat)
    (d : Data) (s : Store) (cj : Nat) (vec : List Data)
    (hs : d.store? = some s) (ht : d.targetRef? = some j)
    (hl : storeContains st s j = true) (hcj : storeCount st s j = some cj)
    (hca : st.aheap.contains_key self_ref = true)
    (hv : st.aheap.get? self_ref = some vec) (hid : id < vec.length) :
    ∃ st', DataArray.set_property st self_ref id d = some st' ∧
      storeCount st' s j = some (cj + 1) ∧
      (∀ s' i, ¬(s' = s ∧ i = j) → storeCount st' s' i = storeCount st s' i) ∧
      (∀ s' i, storeContains st' s' i = storeContains st s' i) ∧
      st'.aheap.get? self_ref = some (vec.set id d) ∧
      (∀ s', storeQueue st' s' =
        storeQueue st s' ++ queuedFrom (some (vec.getD id Data.DNull)) s') := by
  cases d with
  | DObject j0 =>
    simp only [Data.store?, Option.some_inj] at hs
    simp only [Data.targetRef?, Option.some_inj] at ht
    subst hs
    subst ht
    simp only [storeContains] at hl
    simp only [storeCount] at hcj
    obtain ⟨d0, hd0⟩ := Heap.exists_get?_of_contains hl
    have hblob : st.oheap.data.get? j0 = some ⟨d0, cj⟩ := Heap.blob_of_get?_count? hd0 hcj
    obtain ⟨oh1, hincr, hget1, hframe1, hcont1, _⟩ := Heap.incr_spec st.oheap j0 ⟨d0, cj⟩ hblob
    obtain ⟨b1, hb1, hb1d⟩ := Heap.exists_blob_of_get? hv
    obtain ⟨ah2, hset, hget2, hframe2, hcont2, hcountall2, _⟩ :=
      Heap.setData_spec st.aheap self_ref (vec.set id (Data.DObject j0)) b1 hb1
    refine ⟨queueOld { st with oheap := oh1, aheap := ah2 }
        (some (vec.getD id Data.DNull)), ?_, ?_, ?_, ?_, ?_, ?_⟩
    · simp [DataArray.set_property, incrByKind, hincr, hca, hv, hid, hset]
    · simp only [storeCount]
      rw [queueOld_oheap]
      exact Heap.count?_of_blob hget1
    · intro s' i hni
      cases s' with
      | obj =>
        have hij : i ≠ j0 := by
          intro h
          exact hni ⟨rfl, h⟩
        simp only [storeCount]
        rw [queueOld_oheap]
        exact Heap.count?_congr (hframe1 i hij)
      | arr =>
        simp only [storeCount]
        rw [queueOld_aheap]
        exact hcountall2 i
      | bytes =>
        simp only [storeCount]
        rw [queueOld_bheap]
    · intro s' i
      cases s' with
      | obj =>
        simp only [storeContains]
        rw [queueOld_oheap]
        exact hcont1 i
      | arr =>
        simp only [storeContains]
        rw [queueOld_aheap]
        exact hcont2 i
      | bytes =>
        simp only [storeContains]
        rw [queueOld_bheap]
    · rw [queueOld_aheap]
      exact Heap.get?_data_of_blob hget2
    · intro s'
      rw [storeQueue_queueOld]
      cases s' <;> rfl
  | DArray j0 =>
    simp only [Data.store?, Option.some_inj] at hs
    simp only [Data.targetRef?, Option.some_inj] at ht
    subst hs
    subst ht
    simp only [storeContains] at hl
    simp only [storeCount] at hcj
    obtain ⟨d0, hd0⟩ := Heap.exists_get?_of_contains hl
    have hblob : st.aheap.data.get? j0 = some ⟨d0, cj⟩ := Heap.blob_of_get?_count? hd0 hcj
    obtain ⟨ah1, hincr, hget1, hframe1, hcont1, _⟩ := Heap.incr_spec st.aheap j0 ⟨d0, cj⟩ hblob
    have hcaself : ah1.contains_key self_ref = true := by rw [hcont1]; exact hca
    have hvself : ah1.get? self_ref = some vec := by
      by_cases hsj : self_ref = j0
      · subst hsj
        have hdm : d0 = vec := by
          rw [hv] at hd0
          exact (Option.some_inj.mp hd0).symm
        subst hdm
        exact Heap.get?_data_of_blob hget1
      · rw [Heap.get?_congr (hframe1 self_ref hsj)]
        exact hv
    obtain ⟨b1, hb1, hb1d⟩ := Heap.exists_blob_of_get? hvself
    obtain ⟨ah2, hset, hget2, hframe2, hcont2, hcountall2, _⟩ :=
      Heap.setData_spec ah1 self_ref (vec.set id (Data.DArray j0)) b1 hb1
    refine ⟨queueOld { st with aheap := ah2 } (some (vec.getD id Data.DNull)),
      ?_, ?_, ?_, ?_, ?_, ?_⟩
    · simp [DataArray.set_property, incrByKind, hincr, hcaself, hvself, hid, hset]
    · simp only [storeCount]
      rw [queueOld_aheap, hcountall2 j0]
      exact Heap.count?_of_blob hget1
    · intro s' i hni
      cases s' with
      | obj =>
        simp only [storeCount]
        rw [queueOld_oheap]
      | arr =>
        have hij : i ≠ j0 := by
          intro h
          exact hni ⟨rfl, h⟩
        simp only [storeCount]
        rw [queueOld_aheap, hcountall2 i]
        exact Heap.count?_congr (hframe1 i hij)
      | bytes =>
        simp only [storeCount]
        rw [queueOld_bheap]
    · intro s' i
      cases s' with
      | obj =>
        simp only [storeContains]
        rw [queueOld_oheap]
      | arr =>
        simp only [storeContains]
        rw [queueOld_aheap, hcont2 i, hcont1 i]
      | bytes =>
        simp only [storeContains]
        rw [queueOld_bheap]
    · rw [queueOld_aheap]
      exact Heap.get?_data_of_blob hget2
    · intro s'
      rw [storeQueue_queueOld]
      cases s' <;> rfl
  | DBytes j0 =>
    simp only [Data.store?, Option.some_inj] at hs
    simp only [Data.targetRef?, Option.some_inj] at ht
    subst hs
    subst ht
    simp only [storeContains] at hl
    simp only [storeCount] at hcj
    obtain ⟨d0, hd0⟩ := Heap.exists_get?_of_contains hl
    have hblob : st.bheap.data.get? j0 = some ⟨d0, cj⟩ := Heap.blob_of_get?_count? hd0 hcj
    obtain ⟨bh1, hincr, hget1, hframe1, hcont1, _⟩ := Heap.incr_spec st.bheap j0 ⟨d0, cj⟩ hblob
    obtain ⟨b1, hb1, hb1d⟩ := Heap.exists_blob_of_get? hv
    obtain ⟨ah2, hset, hget2, hframe2, hcont2, hcountall2, _⟩ :=
      Heap.setData_spec st.aheap self_ref (vec.set id (Data.DBytes j0)) b1 hb1
    refine ⟨queueOld { st with bheap := bh1, aheap := ah2 }
        (some (vec.getD id Data.DNull)), ?_, ?_, ?_, ?_, ?_, ?_⟩
    · simp [DataArray.set_property, incrByKind, hincr, hca, hv, hid, hset]
    · simp only [storeCount]
      rw [queueOld_bheap]
      exact Heap.count?_of_blob hget1
    · intro s' i hni
      cases s' with
      | obj =>
        simp only [storeCount]
        rw [queueOld_oheap]
      | arr =>
        simp only [storeCount]
        rw [queueOld_aheap]
        exact hcountall2 i
      | bytes =>
        have hij : i ≠ j0 := by
          intro h
          exact hni ⟨rfl, h⟩
        simp only [storeCount]
        rw [queueOld_bheap]
        exact Heap.count?_congr (hframe1 i hij)
    · intro s' i
      cases s' with
      | obj =>
        simp only [storeContains]
        rw [queueOld_oheap]
      | arr =>
        simp only [storeContains]
        rw [queueOld_aheap]
        exact hcont2 i
      | bytes =>
        simp only [storeContains]
        rw [queueOld_bheap]
        exact hcont1 i
    · rw [queueOld_aheap]
      exact Heap.get?_data_of_blob hget2
    · intro s'
      rw [storeQueue_queueOld]
      cases s' <;> rfl
  | DString x => simp [Data.store?] at hs
  | DBoolean x => simp [Data.store?] at hs
  | DFloat x => simp [Data.store?] at hs
  | DInt x => simp [Data.store?] at hs
  | DNull => simp [Data.store?] at hs

/-- C4.  For every live container and every handle-bearing value with a
live target, written via `DataObject::set_property` (object key),
`DataArray::set_property` (array index, in bounds) or
`DataArray::push_property`: the operation succeeds, the target count of
the new value is incremented by exactly 1, every other reference count
and every liveness bit in all three heaps is unchanged (nothing is
synchronously decremented), the container's payload receives the value,
and a replaced handle-bearing prior value has its index appended to its
store's pending-decrement queue (`push_property` queues nothing). -/
theorem claim4_write_increments (st : NState) (self_ref j id : Nat) (key : String)
    (d : Data) (s : Store) (cj : Nat)
    (hs : d.store? = some s) (ht : d.targetRef? = some j)
    (hl : storeContains st s j = true) (hcj : storeCount st s j = some cj) :
    (∀ m : ObjMap, st.oheap.contains_key self_ref = true →
      st.oheap.get? self_ref = some m →
      ∃ st', DataObject.set_property st self_ref key d = some st' ∧
        storeCount st' s j = some (cj + 1) ∧
        (∀ s' i, ¬(s' = s ∧ i = j) → storeCount st' s' i = storeCount st s' i) ∧
        (∀ s' i, storeContains st' s' i = storeContains st s' i) ∧
        st'.oheap.get? self_ref = some (mapInsert m key d).2 ∧
        (∀ s', storeQueue st' s' =
          storeQueue st s' ++ queuedFrom (mapInsert m key d).1 s')) ∧
    (∀ vec : List Data, st.aheap.contains_key self_ref = true →
      st.aheap.get? self_ref = some vec → id < vec.length →
      ∃ st', DataArray.set_property st self_ref id d = some st' ∧
        storeCount st' s j = some (cj + 1) ∧
        (∀ s' i, ¬(s' = s ∧ i = j) → storeCount st' s' i = storeCount st s' i) ∧
        (∀ s' i, storeContains st' s' i = storeContains st s' i) ∧
        st'.aheap.get? self_ref = some (vec.set id d) ∧
        (∀ s', storeQueue st' s' =
          storeQueue st s' ++ queuedFrom (some (vec.getD id Data.DNull)) s')) ∧
    (∀ vec : List Data, st.aheap.contains_key self_ref = true →
      st.aheap.get? self_ref = some vec →
      ∃ st', DataArray.push_property st self_ref d = some st' ∧
        storeCount st' s j = some (cj + 1) ∧
        (∀ s' i, ¬(s' = s ∧ i = j) → storeCount st' s' i = storeCount st s' i) ∧
        (∀ s' i, storeContains st' s' i = storeContains st s' i) ∧
        st'.aheap.get? self_ref = some (vec ++ [d]) ∧
        (∀ s', storeQueue st' s' = storeQueue st s')) :=
  ⟨fun m hco hm =>
      objectSetPropertySpec st self_ref j key d s cj m hs ht hl hcj hco hm,
   fun vec hca hv hid =>
      arraySetPropertySpec st self_ref j id d s cj vec hs ht hl hcj hca hv hid,
   fun vec hca hv =>
      DataArray.push_property_spec st self_ref j d s cj vec hs ht hl hcj hca hv⟩

/-- Concrete state for the C4 witness: object 0 holds `{"k": 1}`, object 1
is an empty object (the target), one array exists, queues are empty. -/
def c4State : NState :=
  ⟨⟨⟨[some ⟨[("k", Data.DInt 1)], 1⟩, some ⟨[], 1⟩], [], 2⟩⟩,
   ⟨⟨[some ⟨[Data.DNull], 1⟩], [], 1⟩⟩,
   ⟨⟨[], [], 0⟩⟩, [], [], []⟩

/-- Witness for C4: writing the object handle `DObject 1` under key "k" of
live object 0 in `c4State` succeeds and bumps object 1's count from 1
to 2. -/
theorem claim4_witness :
    ((Data.DObject 1).store? = some Store.obj ∧
      (Data.DObject 1).targetRef? = some 1 ∧
      storeContains c4State Store.obj 1 = true ∧
      storeCount c4State Store.obj 1 = some 1 ∧
      c4State.oheap.contains_key 0 = true ∧
      c4State.oheap.get? 0 = some [("k", Data.DInt 1)]) ∧
    (∃ st', DataObject.set_property c4State 0 "k" (Data.DObject 1) = some st' ∧
      storeCount st' Store.obj 1 = some 2 ∧
      (∀ s' i, ¬(s' = Store.obj ∧ i = 1) →
        storeCount st' s' i = storeCount c4State s' i) ∧
      (∀ s' i, storeContains st' s' i = storeContains c4State s' i) ∧
      st'.oheap.get? 0 = some (mapInsert [("k", Data.DInt 1)] "k" (Data.DObject 1)).2 ∧
      (∀ s', storeQueue st' s' = storeQueue c4State s' ++
        queuedFrom (mapInsert [("k", Data.DInt 1)] "k" (Data.DObject 1)).1 s')) :=
  ⟨⟨rfl, rfl, by decide, by decide, by decide, by decide⟩,
   (claim4_write_increments c4State 0 1 0 "k" (Data.DObject 1) Store.obj 1
      rfl rfl (by decide) (by decide)).1 [("k", Data.DInt 1)] (by decide) (by decide)⟩

/-- C8 amended.  For every live `DataBytes` stream: `write(buf)` appends
`buf` and returns `true` while the stream is both write-open *and*
read-open, and returns `false` leaving the state unchanged otherwise
(`try_write` requires only the write side); `read(n)` removes and returns
the first `min(n, current length)` bytes while the stream is read-open and
panics otherwise; and when the write side is closed and a read leaves no
bytes remaining, the read side is automatically closed. -/
theorem claim8_stream_semantics (st : NState) (r : Nat) (s : DataStream)
    (hs : st.bheap.get? r = some s) (n : Nat) (buf : List Nat) :
    (s.write_open = true → s.read_open = true →
      ∃ st', DataBytes.write st r buf = (st', true) ∧
        st'.bheap.get? r = some { s with data := s.data ++ buf }) ∧
    (¬(s.write_open = true ∧ s.read_open = true) →
      DataBytes.write st r buf = (st, false)) ∧
    (s.read_open = true →
      ∃ st', DataBytes.read st r n = some (st', s.data.take (min n s.data.length)) ∧
        st'.bheap.get? r = some
          (if s.write_open = false ∧ s.data.drop (min n s.data.length) = [] then
            { s with data := s.data.drop (min n s.data.length), read_open := false }
          else { s with data := s.data.drop (min n s.data.length) }) ∧
        (s.write_open = false → s.data.drop (min n s.data.length) = [] →
          (st'.bheap.get? r).map DataStream.read_open = some false)) ∧
    (s.read_open = false → DataBytes.read st r n = none) := by
  have hcont : st.bheap.contains_key r = true := Heap.contains_of_get? hs
  obtain ⟨b, hb, hbd⟩ := Heap.exists_blob_of_get? hs
  refine ⟨?_, ?_, ?_, ?_⟩
  · intro hw hrd
    obtain ⟨bh', hset, hget', _, _, _, _⟩ :=
      Heap.setData_spec st.bheap r { s with data := s.data ++ buf } b hb
    refine ⟨{ st with bheap := bh' }, ?_, Heap.get?_data_of_blob hget'⟩
    rw [hw, hrd] at hset
    simp [DataBytes.write, hcont, hs, hw, hrd, hset]
  · intro hnot
    rcases Classical.not_and_iff_or_not_not.mp hnot with hw | hrd
    · simp [DataBytes.write, hcont, hs, hw]
    · simp [DataBytes.write, hcont, hs, hrd]
  · intro hrd
    by_cases hcond : s.write_open = false ∧ s.data.drop (min n s.data.length) = []
    · obtain ⟨bh', hset, hget', _, _, _, _⟩ := Heap.setData_spec st.bheap r
        { s with data := s.data.drop (min n s.data.length), read_open := false } b hb
      refine ⟨{ st with bheap := bh' }, ?_, ?_, ?_⟩
      · simp only [DataBytes.read, hcont, Bool.true_eq_false, not_false_eq_true, reduceIte,
          hs, Option.some_bind, hrd, not_true_eq_false]
        split
        next =>
          rw [hset]
          rfl
        next hcondif =>
          exfalso
          exact hcondif ⟨by simp [hcond.1], by simp [hcond.2]⟩
      · rw [Heap.get?_data_of_blob hget', if_pos hcond]
      · intro _ _
        rw [Heap.get?_data_of_blob hget']
        rfl
    · obtain ⟨bh', hset, hget', _, _, _, _⟩ := Heap.setData_spec st.bheap r
        { s with data := s.data.drop (min n s.data.length) } b hb
      refine ⟨{ st with bheap := bh' }, ?_, ?_, ?_⟩
      · rw [hrd] at hset
        simp only [DataBytes.read, hcont, Bool.true_eq_false, not_false_eq_true, reduceIte,
          hs, Option.some_bind, hrd, not_true_eq_false]
        split
        next hcondif =>
          exfalso
          exact hcond ⟨by simpa using hcondif.1, by simpa using hcondif.2⟩
        next =>
          rw [hset]
          rfl
      · rw [Heap.get?_data_of_blob hget', if_neg hcond]
      · intro hw hdrop
        exact absurd ⟨hw, hdrop⟩ hcond
  · intro hrd
    simp [DataBytes.read, hcont, hs, hrd]

/-- Concrete state for the C8 witness: one live stream at index 0 holding
bytes `[1, 2]`, read-open with the write side already closed. -/
def c8State : NState :=
  ⟨⟨⟨[], [], 0⟩⟩, ⟨⟨[], [], 0⟩⟩,
   ⟨⟨[some ⟨⟨[1, 2], 2, true, false, none⟩, 1⟩], [], 1⟩⟩, [], [], []⟩

/-- Witness for C8: reading 2 bytes from the stream of `c8State` returns
`[1, 2]` and, because the write side is closed and no bytes remain, closes
the read side. -/
theorem claim8_witness :
    (c8State.bheap.get? 0 = some ⟨[1, 2], 2, true, false, none⟩) ∧
    (∃ st', DataBytes.read c8State 0 2 = some (st', [1, 2]) ∧
      st'.bheap.get? 0 = some ⟨[], 2, false, false, none⟩ ∧
      ((false : Bool) = false → ([] : List Nat) = [] →
        (st'.bheap.get? 0).map DataStream.read_open = some false)) :=
  ⟨by decide,
   (claim8_stream_semantics c8State 0 ⟨[1, 2], 2, true, false, none⟩
      (by decide) 2 []).2.2.1 rfl⟩

/-- Witness for C5: a live entry with count 2 at index 0; `decr` leaves it
live with count 1. -/
theorem claim5_witness :
    ((⟨⟨[some ⟨5, 2⟩], [], 1⟩⟩ : Heap Nat).contains_key 0 = true ∧
      (⟨⟨[some ⟨5, 2⟩], [], 1⟩⟩ : Heap Nat).count? 0 = some 2) ∧
    (∃ h', (⟨⟨[some ⟨5, 2⟩], [], 1⟩⟩ : Heap Nat).decr 0 = some h' ∧
      h'.contains_key 0 = true ∧ h'.count? 0 = some 1) :=
  ⟨⟨by decide, by decide⟩,
   ((claim5_decr_spec (⟨⟨[some ⟨5, 2⟩], [], 1⟩⟩ : Heap Nat) 0 2).1
      (by decide) (by decide)).2 (by omega)⟩

/-- Concrete state for the C10 witness: one live array at index 0 holding
the single object handle `DObject 3`. -/
def c10State : NState :=
  ⟨⟨⟨[], [], 0⟩⟩, ⟨⟨[some ⟨[Data.DObject 3], 1⟩], [], 1⟩⟩,
   ⟨⟨[], [], 0⟩⟩, [], [], []⟩

/-- Witness for C10: handle equality at a concrete pair, and `index_of`
finding the handle `DObject 3` in the concrete array of `c10State`. -/
theorem claim10_witness :
    ((Data.DObject 3).isHandle = true ∧
      c10State.aheap.get? 0 = some [Data.DObject 3]) ∧
    (Data.equals (Data.DObject 3) (Data.DObject 3) = true ↔
      Data.DObject 3 = Data.DObject 3) ∧
    (DataArray.index_of c10State 0 (Data.DObject 3) ≠ -1 ↔
      Data.DObject 3 ∈ [Data.DObject 3]) :=
  ⟨⟨rfl, by decide⟩,
   claim10_identity_equality.1 (Data.DObject 3) (Data.DObject 3) rfl rfl,
   claim10_identity_equality.2 c10State 0 [Data.DObject 3] (Data.DObject 3)
     (by decide) rfl⟩

end NData
